import Mathlib

/-!
# Verification of the omni-tars response parser

Shallow embedding of `multimodal/omni-tars/core/src/utils/parser.ts`:
the three environment decoders (`parseCodeContent`, `parseMcpContent`,
`parseComputerContent`), the tag extractors, and the tool-call id
generator.  Text is modelled as `List Char` internally with `String`
at the interfaces; the JavaScript regular expressions of the source are
modelled by explicit leftmost-match scanners; `JSON.parse`/`JSON.stringify`
are modelled by an executable JSON parser and printer in which numbers
carry their decimal lexeme; `Date.now()` and `Math.random().toString(36)`
are modelled as explicit entropy inputs.
-/

namespace OmniParser

/-- Predicate for the JavaScript whitespace class: the characters matched by
`\s` and removed by `String.prototype.trim` (WhiteSpace plus LineTerminator). -/
def jsWhitespace (c : Char) : Bool :=
  let n := c.toNat
  n == 32 || (9 ≤ n && n ≤ 13) || n == 0xa0 || n == 0x1680 ||
  (0x2000 ≤ n && n ≤ 0x200a) || n == 0x2028 || n == 0x2029 ||
  n == 0x202f || n == 0x205f || n == 0x3000 || n == 0xfeff

/-- Drop JavaScript whitespace from the left end of a character list. -/
def trimLeftL (l : List Char) : List Char := l.dropWhile jsWhitespace

/-- Drop JavaScript whitespace from the right end of a character list. -/
def trimRightL (l : List Char) : List Char :=
  (l.reverse.dropWhile jsWhitespace).reverse

/-- Model of `String.prototype.trim`. -/
def jsTrim (l : List Char) : List Char := trimRightL (trimLeftL l)

/-- Boolean test that `pat` is a literal prefix of `s`. -/
def litPfx : List Char → List Char → Bool
  | [], _ => true
  | _ :: _, [] => false
  | a :: as, b :: bs => a == b && litPfx as bs

/-- Index of the first occurrence of the literal `pat` inside `s`
(the leftmost position where a JavaScript regex made of the literal
characters of `pat` would match). -/
def findSub (pat : List Char) : List Char → Option Nat
  | [] => if litPfx pat [] then some 0 else none
  | c :: t => if litPfx pat (c :: t) then some 0 else (findSub pat t).map (· + 1)

/-- Model of a JavaScript match `/O([\s\S]*?)C/` for literals `O`, `C`:
the capture of the first occurrence of `O` followed (lazily) by the first
subsequent occurrence of `C`, or `none` when no such pair exists. -/
def matchBetween (o c s : List Char) : Option (List Char) :=
  match findSub o s with
  | none => none
  | some i =>
    let rest := s.drop (i + o.length)
    match findSub c rest with
    | none => none
    | some j => some (rest.take j)

/-- Generic leftmost scan: try `f` at every position of the text, left to
right, and return its first success.  This is how a JavaScript regex engine
locates a match: on failure at one position it retries one character later. -/
def scanFirst (f : List Char → Option α) : List Char → Option α
  | [] => none
  | c :: t =>
    match f (c :: t) with
    | some a => some a
    | none => scanFirst f t

/-- Opening delimiter of the reasoning region (the literal obfuscated
think tag of the source). -/
def thinkOpen : List Char :=
  "<think_never_used_51bce0c785ca2f68081bfa7d91973934>".toList

/-- Closing delimiter of the reasoning region. -/
def thinkClose : List Char :=
  "</think_never_used_51bce0c785ca2f68081bfa7d91973934>".toList

/-- Opening delimiter of the answer region. -/
def answerOpen : List Char := "<answer>".toList

/-- Closing delimiter of the answer region. -/
def answerClose : List Char := "</answer>".toList

/-- Opening delimiter of the code environment region. -/
def codeOpen : List Char := "<code_env>".toList

/-- Closing delimiter of the code environment region. -/
def codeClose : List Char := "</code_env>".toList

/-- Opening delimiter of the MCP (tool) environment region. -/
def mcpOpen : List Char := "<mcp_env>".toList

/-- Closing delimiter of the MCP (tool) environment region. -/
def mcpClose : List Char := "</mcp_env>".toList

/-- Opening delimiter of the computer (pointer) environment region. -/
def compOpen : List Char := "<computer_env>".toList

/-- Closing delimiter of the computer (pointer) environment region. -/
def compClose : List Char := "</computer_env>".toList

/-- Opening sentinel of the tool-call payload, including the immediately
following `[` required by the source regex. -/
def fcOpen : List Char := "<|FunctionCallBegin|>[".toList

/-- Closing sentinel of the tool-call payload, including the immediately
preceding `]` required by the source regex. -/
def fcClose : List Char := "]<|FunctionCallEnd|>".toList

/-- Generic tag extractor: trimmed content of the first `o …​ c` pair,
empty string when no such pair exists.  `extractThinkContent` and
`extractAnswerContent` of the source are its two instances. -/
def extractTag (o c : List Char) (content : String) : String :=
  match matchBetween o c content.toList with
  | some m => (jsTrim m).asString
  | none => ""

/-- Model of `extractThinkContent` from the source. -/
def extractThinkContent (content : String) : String :=
  extractTag thinkOpen thinkClose content

/-- Model of `extractAnswerContent` from the source. -/
def extractAnswerContent (content : String) : String :=
  extractTag answerOpen answerClose content

/-!
## JSON model

The decoders call the JavaScript builtins `JSON.parse` and `JSON.stringify`.
They are modelled here by an executable parser and printer over an inductive
JSON value type.  Numbers carry their decimal lexeme (the printer re-emits
the lexeme, so a parse/print round trip is exact for canonical decimal
numerals; non-canonical numerals such as `1e2` are outside the behaviour any
theorem below relies on).  String escapes `\uXXXX` are accepted only for
scalar values (surrogate halves are outside the modelled domain).
-/

/-- JSON values, as produced by the modelled `JSON.parse`. -/
inductive Json where
  | str (s : String) : Json
  | num (lexeme : String) : Json
  | obj (fields : List (String × Json)) : Json
  | arr (elems : List Json) : Json
  | bool (b : Bool) : Json
  | null : Json

/-- Test for the `null` JSON value. -/
def Json.isNull : Json → Bool
  | .null => true
  | _ => false

/-- JavaScript property access `j.k` for JSON values: defined for objects,
`none` (undefined) for every other non-null value.  (Access on `null`
throws in JavaScript; the decoders' handling of that is modelled at the
call site.) -/
def jsGet (j : Json) (k : String) : Option Json :=
  match j with
  | .obj fields =>
    match fields.find? (fun f => f.1 == k) with
    | some f => some f.2
    | none => none
  | _ => none

/-- Whether a JSON number lexeme denotes zero: true exactly when every
digit of its integer and fraction parts is `0` (the exponent is irrelevant). -/
def zeroLexeme (l : List Char) : Bool :=
  let body := (if litPfx ['-'] l then l.drop 1 else l).takeWhile
    (fun c => c != 'e' && c != 'E')
  body.all (fun c => c == '0' || c == '.')

/-- JavaScript truthiness of a JSON value. -/
def jsTruthy : Json → Bool
  | .null => false
  | .bool b => b
  | .num l => !zeroLexeme l.toList
  | .str s => !s.isEmpty
  | .arr _ => true
  | .obj _ => true

/-- JavaScript truthiness of a possibly-undefined value (`none` is
undefined, hence falsy). -/
def jsTruthyOpt : Option Json → Bool
  | none => false
  | some j => jsTruthy j

/-- Characters treated as insignificant whitespace by `JSON.parse`. -/
def jsonWs (c : Char) : Bool :=
  let n := c.toNat
  n == 32 || n == 9 || n == 10 || n == 13

/-- Decimal digit test. -/
def isDigitC (c : Char) : Bool := 48 ≤ c.toNat && c.toNat ≤ 57

/-- Digit-fold value of a decimal digit string. -/
def parseNatDigits (ds : List Char) : Nat :=
  ds.foldl (fun a c => 10 * a + (c.toNat - 48)) 0

/-- Canonical array-index key: the decimal rendering, without leading
zeros, of an integer below `2^32 - 1`.  JavaScript objects hold the
properties under these keys apart, in ascending numeric order ahead of
all other properties — the enumeration order `JSON.stringify` walks. -/
def isArrayIdx (k : List Char) : Bool :=
  match k with
  | [] => false
  | [c] => isDigitC c
  | c :: rest =>
    isDigitC c && !(c == '0') && rest.all isDigitC &&
      parseNatDigits (c :: rest) ≤ 4294967294

/-- `isArrayIdx` on a `String` key. -/
def isArrayIdxS (k : String) : Bool := isArrayIdx k.toList

/-- Object-field insertion with JavaScript object semantics: a key
already present keeps its position but takes the later value; a new
array-index key is placed in the leading index section in ascending
numeric order; any other new key is appended, preserving insertion
order. -/
def objInsert (fields : List (String × Json)) (k : String) (v : Json) :
    List (String × Json) :=
  match fields with
  | [] => [(k, v)]
  | f :: fs =>
    if f.1 == k then (k, v) :: fs
    else if isArrayIdxS k &&
        (!(isArrayIdxS f.1) ||
          parseNatDigits k.toList < parseNatDigits f.1.toList) then
      (k, v) :: f :: fs
    else f :: objInsert fs k v

/-- Hexadecimal digit value, when defined. -/
def hexVal (c : Char) : Option Nat :=
  let n := c.toNat
  if 48 ≤ n && n ≤ 57 then some (n - 48)
  else if 97 ≤ n && n ≤ 102 then some (n - 87)
  else if 65 ≤ n && n ≤ 70 then some (n - 55)
  else none

/-- The short escape sequences of JSON strings: each pair is the character
after the backslash and the character it denotes. -/
def escMap : List (Char × Char) :=
  [('"', '"'), ('\\', '\\'), ('/', '/'), ('n', '\n'), ('t', '\t'),
   ('r', '\r'), ('b', '\x08'), ('f', '\x0c')]

/-- Decode one short escape, when it is one. -/
def escDecode (e : Char) : Option Char :=
  (escMap.find? (fun p => p.1 == e)).map Prod.snd

/-- Parse the body of a JSON string literal (after the opening quote),
returning the decoded characters and the text after the closing quote.
`JSON.parse` accepts every `\uXXXX` escape: a high-surrogate escape
immediately followed by a low-surrogate escape denotes the paired
supplementary code point; an unpaired surrogate escape is kept by the
builtin as a lone UTF-16 unit, which has no Unicode scalar value and
hence no `Char` — it is represented here by U+FFFD, its rendering under
every well-formed encoding.  Only the content of such a string differs
from the builtin, never whether the input parses. -/
def parseJStr : Nat → List Char → Option (List Char × List Char)
  | 0, _ => none
  | _, [] => none
  | fuel + 1, c :: t =>
    if c == '"' then some ([], t)
    else if c == '\\' then
      match t with
      | [] => none
      | e :: t' =>
        if e == 'u' then
          match t' with
          | h1 :: h2 :: h3 :: h4 :: t'' =>
            match hexVal h1, hexVal h2, hexVal h3, hexVal h4 with
            | some a, some b, some c', some d =>
              let code := a * 4096 + b * 256 + c' * 16 + d
              if code < 0xd800 || 0xdfff < code then
                (parseJStr fuel t'').map
                  (fun r => (Char.ofNat code :: r.1, r.2))
              else if 0xdc00 ≤ code then
                (parseJStr fuel t'').map
                  (fun r => (Char.ofNat 0xfffd :: r.1, r.2))
              else
                match t'' with
                | '\\' :: 'u' :: g1 :: g2 :: g3 :: g4 :: t3 =>
                  match hexVal g1, hexVal g2, hexVal g3, hexVal g4 with
                  | some a2, some b2, some c2, some d2 =>
                    let code2 := a2 * 4096 + b2 * 256 + c2 * 16 + d2
                    if 0xdc00 ≤ code2 && code2 ≤ 0xdfff then
                      (parseJStr fuel t3).map (fun r =>
                        (Char.ofNat ((code - 0xd800) * 1024 +
                          (code2 - 0xdc00) + 0x10000) :: r.1, r.2))
                    else (parseJStr fuel t'').map
                      (fun r => (Char.ofNat 0xfffd :: r.1, r.2))
                  | _, _, _, _ => (parseJStr fuel t'').map
                      (fun r => (Char.ofNat 0xfffd :: r.1, r.2))
                | _ => (parseJStr fuel t'').map
                    (fun r => (Char.ofNat 0xfffd :: r.1, r.2))
            | _, _, _, _ => none
          | _ => none
        else
          match escDecode e with
          | some d => (parseJStr fuel t').map (fun r => (d :: r.1, r.2))
          | none => none
    else if c.toNat < 0x20 then none
    else (parseJStr fuel t).map (fun r => (c :: r.1, r.2))

/-- Parse a JSON number starting at the head of the text, returning its
lexeme and the remaining text.  Grammar: `-?(0|[1-9][0-9]*)(.[0-9]+)?([eE][+-]?[0-9]+)?`. -/
def parseJNum (s : List Char) : Option (List Char × List Char) :=
  let (sign, s1) := if litPfx ['-'] s then (['-'], s.drop 1) else ([], s)
  match s1 with
  | [] => none
  | c :: _ =>
    if !isDigitC c then none
    else
      let intPart := if c == '0' then ['0'] else s1.takeWhile isDigitC
      let s2 := s1.drop intPart.length
      let (frac, s3) :=
        if litPfx ['.'] s2 then
          let ds := (s2.drop 1).takeWhile isDigitC
          if ds.isEmpty then ([], s2) else ('.' :: ds, s2.drop (1 + ds.length))
        else ([], s2)
      if litPfx ['.'] s2 && frac.isEmpty then none
      else
        let (expo, s4) :=
          match s3 with
          | e :: rest =>
            if e == 'e' || e == 'E' then
              let (es, rest1) :=
                if litPfx ['+'] rest || litPfx ['-'] rest
                then ([rest.headD '+'], rest.drop 1) else ([], rest)
              let ds := rest1.takeWhile isDigitC
              if ds.isEmpty then ([], s3)
              else (e :: es ++ ds, rest1.drop ds.length)
            else ([], s3)
          | [] => ([], s3)
        match s3 with
        | e :: _ =>
          if (e == 'e' || e == 'E') && expo.isEmpty then none
          else some (sign ++ intPart ++ frac ++ expo, s4)
        | [] => some (sign ++ intPart ++ frac ++ expo, s4)

mutual

/-- Parse one JSON value at the head of the text (no leading-whitespace
skipping; callers skip it), returning the value and the remaining text. -/
def parseJVal : Nat → List Char → Option (Json × List Char)
  | 0, _ => none
  | _, [] => none
  | fuel + 1, c :: t =>
    if c == '"' then (parseJStr (fuel + 1) t).map
      (fun r => (Json.str r.1.asString, r.2))
    else if c == '[' then
      let t1 := t.dropWhile jsonWs
      if litPfx [']'] t1 then some (Json.arr [], t1.drop 1)
      else (parseJItems fuel t1).map (fun r => (Json.arr r.1, r.2))
    else if c == '\x7b' then
      let t1 := t.dropWhile jsonWs
      if litPfx ['\x7d'] t1 then some (Json.obj [], t1.drop 1)
      else (parseJFields fuel t1).map (fun r =>
        (Json.obj (r.1.foldl (fun acc f => objInsert acc f.1 f.2) []), r.2))
    else if litPfx "true".toList (c :: t) then some (Json.bool true, t.drop 3)
    else if litPfx "false".toList (c :: t) then some (Json.bool false, t.drop 4)
    else if litPfx "null".toList (c :: t) then some (Json.null, t.drop 3)
    else (parseJNum (c :: t)).map (fun r => (Json.num r.1.asString, r.2))

/-- Parse the comma-separated elements of a JSON array, up to and including
the closing bracket. -/
def parseJItems : Nat → List Char → Option (List Json × List Char)
  | 0, _ => none
  | fuel + 1, s =>
    match parseJVal fuel s with
    | none => none
    | some (v, rest) =>
      let r1 := rest.dropWhile jsonWs
      if litPfx [']'] r1 then some ([v], r1.drop 1)
      else if litPfx [','] r1 then
        (parseJItems fuel ((r1.drop 1).dropWhile jsonWs)).map
          (fun r => (v :: r.1, r.2))
      else none

/-- Parse the comma-separated fields of a JSON object, up to and including
the closing brace, in raw textual order (duplicates kept; the caller folds
them with `objInsert`, giving JavaScript object semantics). -/
def parseJFields : Nat → List Char → Option (List (String × Json) × List Char)
  | 0, _ => none
  | fuel + 1, s =>
    match s with
    | '"' :: t =>
      match parseJStr (fuel + 1) t with
      | none => none
      | some (k, rest) =>
        let r1 := rest.dropWhile jsonWs
        if litPfx [':'] r1 then
          match parseJVal fuel ((r1.drop 1).dropWhile jsonWs) with
          | none => none
          | some (v, rest2) =>
            let r2 := rest2.dropWhile jsonWs
            if litPfx ['\x7d'] r2 then some ([(k.asString, v)], r2.drop 1)
            else if litPfx [','] r2 then
              (parseJFields fuel ((r2.drop 1).dropWhile jsonWs)).map
                (fun r => ((k.asString, v) :: r.1, r.2))
            else none
        else none
    | _ => none

end

/-- Model of `JSON.parse`: leading and trailing whitespace allowed, a
single value, `none` for every input the JavaScript builtin rejects. -/
def jsonParse (s : String) : Option Json :=
  let l := s.toList.dropWhile jsonWs
  match parseJVal (l.length + 1) l with
  | some (v, rest) => if (rest.dropWhile jsonWs).isEmpty then some v else none
  | none => none

/-- Lowercase hexadecimal digit for a value below 16. -/
def hexDigit (n : Nat) : Char :=
  if n < 10 then Char.ofNat (48 + n) else Char.ofNat (87 + n)

/-- Escape one character the way `JSON.stringify` escapes string contents
(the slash, though decodable as an escape, is never produced as one). -/
def escChar (c : Char) : List Char :=
  match escMap.find? (fun p => c == p.2 && !(p.1 == '/')) with
  | some p => ['\\', p.1]
  | none =>
    if 0x20 ≤ c.toNat then [c]
    else '\\' :: 'u' :: '0' :: '0' ::
      hexDigit (c.toNat / 16) :: hexDigit (c.toNat % 16) :: []

/-- A JSON string literal for `s`, quotes and escapes included. -/
def jstrLit (s : String) : List Char :=
  '"' :: (s.toList.foldr (fun c acc => escChar c ++ acc) []) ++ ['"']

mutual

/-- Model of `JSON.stringify` (no indentation argument, as in the source);
an object's fields are already held in own-property enumeration order by
the insertion functions, so they are walked as stored. -/
def Json.stringify : Json → List Char
  | .null => "null".toList
  | .bool true => "true".toList
  | .bool false => "false".toList
  | .num l => l.toList
  | .str s => jstrLit s
  | .arr es => '[' :: List.intercalate [','] (stringifyArr es) ++ [']']
  | .obj fs => '\x7b' :: List.intercalate [','] (stringifyObj fs) ++ ['\x7d']

/-- Rendered elements of a JSON array. -/
def stringifyArr : List Json → List (List Char)
  | [] => []
  | j :: js => Json.stringify j :: stringifyArr js

/-- Rendered fields of a JSON object. -/
def stringifyObj : List (String × Json) → List (List Char)
  | [] => []
  | (k, v) :: fs => (jstrLit k ++ ':' :: Json.stringify v) :: stringifyObj fs

end

/-!
## Identifier generation and decoded records

`Date.now()` and `Math.random()` are impure; they are modelled as an
explicit entropy stream `Nat → Entropy`, the `k`-th generated identifier of
one decode call consuming entry `k`.  The `rand` component is the string
`Math.random().toString(36)` evaluates to (for example `"0.4fzyo82mvyr"`);
the source then takes its substring from index 2 to 11.
-/

/-- One sample of the impure inputs of `generateToolCallId`: the value of
`Date.now()` in milliseconds and the base-36 rendering of `Math.random()`. -/
structure Entropy where
  now : Nat
  rand : String

/-- Decimal digit character for a value below 10. -/
def digitChar (n : Nat) : Char := Char.ofNat (48 + n)

/-- Fuel-driven digit production for decimal rendering; the fuel is an
upper bound on the number, so it never runs out. -/
def renderNatGo : Nat → Nat → List Char
  | 0, _ => []
  | fuel + 1, n =>
    if n < 10 then [digitChar n]
    else renderNatGo fuel (n / 10) ++ [digitChar (n % 10)]

/-- Decimal rendering of a natural number, as JavaScript renders integral
numbers into template strings. -/
def renderNatL (n : Nat) : List Char := renderNatGo (n + 1) n

/-- Decimal rendering of an integer. -/
def renderIntL (i : Int) : List Char :=
  if i < 0 then '-' :: renderNatL i.natAbs else renderNatL i.natAbs

/-- Model of `generateToolCallId`: the literal prefix `call_`, the decimal
timestamp, an underscore, and `rand.substring(2, 11)`. -/
def generateToolCallId (e : Entropy) : String :=
  "call_" ++ (renderNatL e.now).asString ++ "_" ++
    ((e.rand.toList.drop 2).take 9).asString

/-- Model of `ChatCompletionMessageToolCall` as the decoders build it: the
source's nested `function` object is flattened into `name`/`arguments`.
`name` is the raw value taken from the text (always a JSON string for the
code and computer decoders); `arguments` is the `JSON.stringify` rendering
of the argument record. -/
structure ToolCall where
  id : String
  type : String
  name : Json
  arguments : String

/-- Model of the `ParsedContent` result record.  The source adds the
`tools` key only when at least one call was decoded
(`...(tools.length > 0 && { tools })`); that conditional presence is the
`Option`. -/
structure ParsedContent where
  think : String
  answer : String
  tools : Option (List ToolCall)

/-!
## Code-environment decoder
-/

/-- Literal head of the function marker of the code environment. -/
def funcLit : List Char := "<function=".toList

/-- Literal head of a parameter marker of the code environment. -/
def paramLit : List Char := "<parameter=".toList

/-- One attempt of the regex `<function=([^>]+)>` at the head of the text:
the marker literal, a nonempty run of non-`>` characters, a `>`. -/
def funcStep (s : List Char) : Option (List Char) :=
  if litPfx funcLit s then
    let r := s.drop funcLit.length
    let k := r.takeWhile (fun c => c != '>')
    if k.isEmpty then none
    else if (r.drop k.length).isEmpty then none
    else some k
  else none

/-- Model of `codeEnvContent.match(/<function=([^>]+)>/)`: the first
position where `funcStep` succeeds. -/
def findFunction (s : List Char) : Option (List Char) :=
  scanFirst funcStep s

/-- One attempt of the regex `<parameter=([^>]+)>([^<]*)` at the head of
the text, returning the key, the value and the text after the match.  The
value run stops at the first `<` (or the end of the region). -/
def paramStep (s : List Char) : Option ((List Char × List Char) × List Char) :=
  if litPfx paramLit s then
    let r := s.drop paramLit.length
    let k := r.takeWhile (fun c => c != '>')
    if k.isEmpty then none
    else
      match r.drop k.length with
      | [] => none
      | _ :: t =>
        let v := t.takeWhile (fun c => c != '<')
        some ((k, v), t.drop v.length)
  else none

/-- Fuel-driven match collection; the fuel is an upper bound on the text
length plus one, so it never runs out (every match consumes at least one
character). -/
def collectParamsGo : Nat → List Char → List (List Char × List Char)
  | 0, _ => []
  | fuel + 1, s =>
    match scanFirst paramStep s with
    | some (kv, rest) => kv :: collectParamsGo fuel rest
    | none => []

/-- Model of `codeEnvContent.matchAll(/<parameter=([^>]+)>([^<]*)/g)`:
all matches, found left to right, the next search resuming immediately
after the previous match's value run. -/
def collectParams (s : List Char) : List (List Char × List Char) :=
  collectParamsGo (s.length + 1) s

/-- Insertion into an association list with JavaScript object-assignment
semantics, keys kept as raw character lists: a key already present keeps
its position but takes the new value; a new array-index key is placed in
the leading index section in ascending numeric order; any other new key
is appended, preserving insertion order. -/
def objInsertKV {ν : Type} (fields : List (List Char × ν)) (k : List Char)
    (v : ν) : List (List Char × ν) :=
  match fields with
  | [] => [(k, v)]
  | f :: fs =>
    if f.1 == k then (k, v) :: fs
    else if isArrayIdx k &&
        (!(isArrayIdx f.1) || parseNatDigits k < parseNatDigits f.1) then
      (k, v) :: f :: fs
    else f :: objInsertKV fs k v

/-- The `parameters` record of the code decoder: the collected matches
folded into an object, in first-seen key order with later duplicates
overwriting. -/
def buildParams (l : List (List Char × List Char)) :
    List (List Char × List Char) :=
  l.foldl (fun acc kv => objInsertKV acc kv.1 kv.2) []

/-- Model of `parseCodeContent`.  `ε` is the entropy stream consumed by
identifier generation; everything else is the source's logic verbatim. -/
def parseCodeContent (ε : Nat → Entropy) (content : String) : ParsedContent :=
  let think := extractThinkContent content
  let answer := extractAnswerContent content
  let tools : List ToolCall :=
    match matchBetween codeOpen codeClose content.toList with
    | none => []
    | some region =>
      match findFunction region with
      | none => []
      | some fname =>
        let ps := buildParams (collectParams region)
        [⟨generateToolCallId (ε 0), "function", Json.str fname.asString,
          (Json.stringify (Json.obj (ps.map
            (fun kv => (kv.1.asString, Json.str kv.2.asString))))).asString⟩]
  ⟨think, answer, if tools.isEmpty then none else some tools⟩

/-!
## Tool-environment (MCP) decoder
-/

/-- The sentinel-delimited payload of the MCP region: the capture of
`/<\|FunctionCallBegin\|>\[([\s\S]*?)\]<\|FunctionCallEnd\|>/` inside the
first `<mcp_env>…​</mcp_env>` region, when both exist. -/
def mcpPayload (content : String) : Option (List Char) :=
  match matchBetween mcpOpen mcpClose content.toList with
  | none => none
  | some region => matchBetween fcOpen fcClose region

/-- The body of the source's `for (const call of functionCallData)` loop.
A descriptor with truthy `name` and truthy `parameters` is pushed with the
next fresh identifier; any other non-null descriptor is skipped; a `null`
descriptor makes the property access `call.name` throw, so the `catch`
keeps what was pushed so far and the remaining descriptors are never
visited — hence the empty list in that branch. -/
def processCalls (ε : Nat → Entropy) : Nat → List Json → List ToolCall
  | _, [] => []
  | k, j :: rest =>
    if j.isNull then []
    else if jsTruthyOpt (jsGet j "name") && jsTruthyOpt (jsGet j "parameters") then
      ⟨generateToolCallId (ε k), "function", (jsGet j "name").getD Json.null,
        (Json.stringify ((jsGet j "parameters").getD Json.null)).asString⟩ ::
        processCalls ε (k + 1) rest
    else processCalls ε k rest

/-- Model of `parseMcpContent`.  The payload is re-wrapped in brackets and
handed to `JSON.parse`; a parse failure is caught (the source logs it and
falls through with zero tools). -/
def parseMcpContent (ε : Nat → Entropy) (content : String) : ParsedContent :=
  let think := extractThinkContent content
  let answer := extractAnswerContent content
  let tools : List ToolCall :=
    match mcpPayload content with
    | none => []
    | some inner =>
      match jsonParse ('[' :: inner ++ [']']).asString with
      | some (Json.arr elems) => processCalls ε 0 elems
      | _ => []
  ⟨think, answer, if tools.isEmpty then none else some tools⟩

/-!
## Pointer-environment (computer) decoder
-/

/-- The literal head `Action:` of the pointer grammar. -/
def actionLit : List Char := "Action:".toList

/-- JavaScript word character (`\w`). -/
def isWordChar (c : Char) : Bool :=
  ('a' ≤ c && c ≤ 'z') || ('A' ≤ c && c ≤ 'Z') || isDigitC c || c == '_'

/-- One attempt of the regex `Action:\s*(\w+)\(([^)]*)\)` at the head of
the text: the literal, a whitespace run, a nonempty word run, `(`, a run
of non-`)` characters, `)`.  Returns the action name and the raw argument
text. -/
def actionStep (s : List Char) : Option (List Char × List Char) :=
  if litPfx actionLit s then
    let r := (s.drop actionLit.length).dropWhile jsWhitespace
    let name := r.takeWhile isWordChar
    if name.isEmpty then none
    else
      match r.drop name.length with
      | '(' :: t =>
        let args := t.takeWhile (fun c => c != ')')
        match t.drop args.length with
        | ')' :: _ => some (name, args)
        | _ => none
      | _ => none
  else none

/-- Model of `computerEnvContent.match(/Action:\s*(\w+)\(([^)]*)\)/)`. -/
def findAction (s : List Char) : Option (List Char × List Char) :=
  scanFirst actionStep s

/-- The literal head `point='<point>` of the distinguished point argument. -/
def pointLit : List Char := "point=\x27<point>".toList

/-- The literal tail `</point>'` of the distinguished point argument. -/
def pointEnd : List Char := "</point>\x27".toList

/-- One attempt of the regex `point='<point>([^<]+)<\/point>'` at the head
of the text, returning the capture and the text after the match. -/
def pointStep (s : List Char) : Option (List Char × List Char) :=
  if litPfx pointLit s then
    let r := s.drop pointLit.length
    let inner := r.takeWhile (fun c => c != '<')
    if inner.isEmpty then none
    else if litPfx pointEnd (r.drop inner.length) then
      some (inner, (r.drop inner.length).drop pointEnd.length)
    else none
  else none

/-- The first match of the point regex, split as (text before the match,
capture, text after the match).  One scan serves both the source's
`match` (the capture) and its `replace` of the same first match (before
and after re-joined). -/
def pointSplit : List Char → Option (List Char × List Char × List Char)
  | [] => none
  | c :: t =>
    match pointStep (c :: t) with
    | some (inner, after) => some ([], inner, after)
    | none => (pointSplit t).map (fun r => (c :: r.1, r.2.1, r.2.2))

/-- Model of `String.prototype.split` with a one-character separator:
every piece is kept, empty pieces included. -/
def splitChar (sep : Char) : List Char → List (List Char)
  | [] => [[]]
  | c :: t =>
    if c == sep then [] :: splitChar sep t
    else
      match splitChar sep t with
      | h :: r => (c :: h) :: r
      | [] => [[c]]

/-- Fuel-driven bit length: the number of binary digits of `n`, zero for
zero.  The fuel is an upper bound on the bit length, so taking `n` itself
never runs out. -/
def sigBits : Nat → Nat → Nat
  | 0, _ => 0
  | fuel + 1, n => if n == 0 then 0 else sigBits fuel (n / 2) + 1

/-- Number of binary digits of `n`. -/
def bitLen (n : Nat) : Nat := sigBits n n

/-- Round a natural number to the nearest IEEE-754 binary64 value (ties to
even), returned as an exact natural: the 53-bit significand keeps every
natural up to `2^53` exact; beyond that the low `bitLen n - 53` bits are
rounded away. -/
def roundDouble (n : Nat) : Nat :=
  if n ≤ 2 ^ 53 then n
  else
    let k := bitLen n - 53
    let q := n / 2 ^ k
    let r := n % 2 ^ k
    let half := 2 ^ (k - 1)
    let q' := if half < r || (r == half && q % 2 == 1) then q + 1 else q
    q' * 2 ^ k

/-- The binary64 value a signed decimal magnitude converts to.  `none`
covers overflow to `±Infinity` (a rounded magnitude of `2^1024` or more),
which `JSON.stringify` renders as `null` exactly as it renders the `NaN`
this decoder's callers also map to `none` — the one channel through which
these values are observed. -/
def jsNumOfNat (neg : Bool) (n : Nat) : Option Int :=
  let m := roundDouble n
  if 2 ^ 1024 ≤ m then none
  else some (if neg then -(m : Int) else (m : Int))

/-- Model of the JavaScript `Number` conversion as the point coordinates
use it.  `none` stands for `NaN` (and for an overflow to `±Infinity`,
rendered identically by `JSON.stringify`).  A trimmed, optionally signed,
nonempty decimal digit string converts to the nearest binary64 value —
exact up to `2^53`; the empty (or all-whitespace) string converts to `0`.
Inputs denoting finite non-integral numbers (fractions, exponents, hex)
are outside the modelled domain and also map to `none`; no theorem below
evaluates the decoder on such an input. -/
def jsNumber (s : List Char) : Option Int :=
  let t := jsTrim s
  if t.isEmpty then some 0
  else
    let (neg, r) :=
      if litPfx ['-'] t then (true, t.drop 1)
      else if litPfx ['+'] t then (false, t.drop 1)
      else (false, t)
    if !r.isEmpty && r.all isDigitC then jsNumOfNat neg (parseNatDigits r)
    else none

/-- JSON value stored for one point coordinate: the number itself, or
`null` where JavaScript would hold `NaN` (which `JSON.stringify` renders
as `null`). -/
def coordJson (o : Option Int) : Json :=
  match o with
  | some n => Json.num (renderIntL n).asString
  | none => Json.null

/-- The nested point value `{x: X, y: Y}` built from the capture of the
point regex: the capture is split on single spaces and the first two
pieces are converted with `Number`.  A missing second piece leaves `y`
undefined, which `JSON.stringify` omits, modelled by omitting the field. -/
def pointValue (inner : List Char) : Json :=
  let pieces := splitChar ' ' inner
  let xf := [("x", coordJson (jsNumber (pieces.headD [])))]
  match pieces.get? 1 with
  | some p => Json.obj (xf ++ [("y", coordJson (jsNumber p))])
  | none => Json.obj xf

/-- Strip one leading and one trailing single or double quote, the effect
of `value.replace(/^['"]|['"]$/g, '')`. -/
def stripQuotes (v : List Char) : List Char :=
  let isQ (c : Char) : Bool := c == '\x27' || c == '"'
  let a := match v with
    | c :: t => if isQ c then t else v
    | [] => v
  match a.getLast? with
  | some c => if isQ c then a.dropLast else a
  | none => a

/-- Fold of the source's loop over the non-point argument pieces: split on
commas, trim, split each piece on `=`, trim key and value, keep the pair
when both are nonempty, strip quotes from the value, and assign into the
parameters record. -/
def addOtherParams (init : List (List Char × Json)) (rest : List Char) :
    List (List Char × Json) :=
  (splitChar ',' rest).foldl
    (fun acc piece =>
      let t := jsTrim piece
      if t.isEmpty then acc
      else
        let parts := (splitChar '=' t).map jsTrim
        let key := parts.headD []
        match parts.get? 1 with
        | some v =>
          if key.isEmpty || v.isEmpty then acc
          else objInsertKV acc key (Json.str (stripQuotes v).asString)
        | none => acc)
    init

/-- Model of `parseComputerContent`. -/
def parseComputerContent (ε : Nat → Entropy) (content : String) : ParsedContent :=
  let think := extractThinkContent content
  let answer := extractAnswerContent content
  let tools : List ToolCall :=
    match matchBetween compOpen compClose content.toList with
    | none => []
    | some region =>
      match findAction (jsTrim region) with
      | none => []
      | some (name, args) =>
        let (pointParams, restArgs) :=
          match pointSplit args with
          | some (before, inner, after) =>
            ([(("point" : String).toList, pointValue inner)], before ++ after)
          | none => ([], args)
        let ps := addOtherParams pointParams restArgs
        [⟨generateToolCallId (ε 0), "function", Json.str name.asString,
          (Json.stringify (Json.obj (ps.map
            (fun kv => (kv.1.asString, kv.2))))).asString⟩]
  ⟨think, answer, if tools.isEmpty then none else some tools⟩

/-!
## Correctness of the literal scanner

`findSub` is characterised against a declarative first-occurrence
specification, which is what the claims about the tag extractor speak
about.
-/

/-- The literal `pat` occurs in `s` starting at index `i`. -/
def occursAt (pat s : List Char) (i : Nat) : Prop :=
  litPfx pat (s.drop i) = true

instance (pat s : List Char) (i : Nat) : Decidable (occursAt pat s i) := by
  unfold occursAt; infer_instance

/-!
## Specification-level definitions used by the theorems
-/

/-- A fixed zero entropy stream for concrete instantiations. -/
def entZero : Nat → Entropy := fun _ => ⟨0, ""⟩

/-- The identifier-free content of a decoded call: its raw name value and
its rendered arguments. -/
def stripTC (t : ToolCall) : Json × String := (t.name, t.arguments)

/-- Emission test of the tool-environment loop: both `name` and
`parameters` are truthy. -/
def mcpEmit (j : Json) : Bool :=
  jsTruthyOpt (jsGet j "name") && jsTruthyOpt (jsGet j "parameters")

/-- The identifier-free invocation a descriptor decodes to. -/
def mcpRawOf (j : Json) : Json × String :=
  ((jsGet j "name").getD Json.null,
    (Json.stringify ((jsGet j "parameters").getD Json.null)).asString)

/-- The descriptor array of the tool environment, empty when the payload
is absent or unparsable. -/
def mcpElems (content : String) : List Json :=
  match mcpPayload content with
  | none => []
  | some inner =>
    match jsonParse ('[' :: inner ++ [']']).asString with
    | some (Json.arr elems) => elems
    | _ => []

/-- Declarative form of the tool-environment decoding: descriptors up to
the first `null` (exclusive), filtered to those with truthy `name` and
`parameters`, each mapped to its identifier-free invocation. -/
def mcpRawCalls (content : String) : List (Json × String) :=
  ((mcpElems content).takeWhile (fun j => !j.isNull)).filterMap
    (fun j => if mcpEmit j then some (mcpRawOf j) else none)

/-- A code-environment parameter marker with key `k` and value `v`. -/
def mkParam (k v : List Char) : List Char := paramLit ++ k ++ '>' :: v

/-- A pointer-environment point argument with the given coordinates. -/
def pointArgL (x y : Int) : List Char :=
  pointLit ++ renderIntL x ++ ' ' :: renderIntL y ++ pointEnd

theorem occursAt_nil_iff {pat : List Char} {i : Nat} :
    occursAt pat [] i ↔ litPfx pat [] = true := by
  simp [occursAt, List.drop_nil]

theorem occursAt_cons_succ {pat : List Char} {c : Char} {t : List Char}
    {j : Nat} : occursAt pat (c :: t) (j + 1) ↔ occursAt pat t j := by
  simp [occursAt, List.drop_succ_cons]

theorem findSub_some_iff {pat s : List Char} {i : Nat} :
    findSub pat s = some i ↔
      (occursAt pat s i ∧ ∀ j < i, ¬occursAt pat s j) := by
  induction s generalizing i with
  | nil =>
    unfold findSub
    by_cases h : litPfx pat [] = true
    · rw [if_pos h]
      constructor
      · rintro ⟨rfl⟩
        exact ⟨occursAt_nil_iff.mpr h, by omega⟩
      · rintro ⟨_, hmin⟩
        rcases Nat.eq_zero_or_pos i with rfl | hpos
        · rfl
        · exact absurd (occursAt_nil_iff.mpr h) (hmin 0 hpos)
    · rw [if_neg h]
      constructor
      · intro hc; exact absurd hc (by simp)
      · rintro ⟨hocc, _⟩
        exact absurd (occursAt_nil_iff.mp hocc) h
  | cons c t ih =>
    unfold findSub
    by_cases h : litPfx pat (c :: t) = true
    · rw [if_pos h]
      constructor
      · rintro ⟨rfl⟩
        exact ⟨h, by omega⟩
      · rintro ⟨_, hmin⟩
        rcases Nat.eq_zero_or_pos i with rfl | hpos
        · rfl
        · exact absurd h (hmin 0 hpos)
    · rw [if_neg h]
      constructor
      · intro hmap
        rcases hfs : findSub pat t with _ | i'
        · rw [hfs] at hmap; exact absurd hmap (by simp)
        · rw [hfs] at hmap
          have hmap' : i' + 1 = i := by simpa using hmap
          subst hmap'
          obtain ⟨hocc, hmin⟩ := ih.mp hfs
          refine ⟨occursAt_cons_succ.mpr hocc, ?_⟩
          intro j hj
          rcases j with _ | j'
          · simpa [occursAt] using h
          · exact fun hc => hmin j' (by omega) (occursAt_cons_succ.mp hc)
      · rintro ⟨hocc, hmin⟩
        rcases i with _ | i'
        · exact absurd (by simpa [occursAt] using hocc) h
        · have hft : findSub pat t = some i' := by
            refine ih.mpr ⟨occursAt_cons_succ.mp hocc, ?_⟩
            intro j hj hc
            exact hmin (j + 1) (by omega) (occursAt_cons_succ.mpr hc)
          rw [hft]
          rfl

theorem findSub_none_iff {pat s : List Char} :
    findSub pat s = none ↔ ∀ i, ¬occursAt pat s i := by
  constructor
  · intro hn i hocc
    induction s generalizing i with
    | nil =>
      unfold findSub at hn
      rcases occursAt_nil_iff.mp hocc with h
      rw [if_pos h] at hn
      exact absurd hn (by simp)
    | cons c t ih =>
      unfold findSub at hn
      by_cases h : litPfx pat (c :: t) = true
      · rw [if_pos h] at hn; exact absurd hn (by simp)
      · rw [if_neg h] at hn
        have hft : findSub pat t = none := by
          rcases hfs : findSub pat t with _ | i'
          · rfl
          · rw [hfs] at hn; exact absurd hn (by simp)
        rcases i with _ | i'
        · exact h (by simpa [occursAt] using hocc)
        · exact ih hft i' (occursAt_cons_succ.mp hocc)
  · intro hall
    rcases hfs : findSub pat s with _ | i
    · rfl
    · exact absurd (findSub_some_iff.mp hfs).1 (hall i)

/-!
## Toolkit lemmas for scanning constructed inputs
-/

theorem litPfx_app_self (p r : List Char) : litPfx p (p ++ r) = true := by
  induction p with
  | nil => rfl
  | cons c t ih => simp [litPfx, ih]

theorem takeWhile_app {p : Char → Bool} {l : List Char} (r : List Char)
    (hl : ∀ c ∈ l, p c = true) :
    (l ++ r).takeWhile p = l ++ r.takeWhile p := by
  induction l with
  | nil => rfl
  | cons c t ih =>
    have hc : p c = true := hl c (by simp)
    simp only [List.cons_append, List.takeWhile_cons, hc, if_true]
    rw [ih (fun x hx => hl x (by simp [hx]))]

theorem takeWhile_cons_false {p : Char → Bool} {x : Char} (t : List Char)
    (h : p x = false) : (x :: t).takeWhile p = [] := by
  simp [List.takeWhile_cons, h]

theorem dropWhile_all_false {p : Char → Bool} {l : List Char}
    (h : ∀ c ∈ l, p c = false) : l.dropWhile p = l := by
  induction l with
  | nil => rfl
  | cons c t _ =>
    have hc : p c = false := h c (by simp)
    simp [List.dropWhile_cons, hc]

theorem jsTrim_all_nonws {l : List Char}
    (h : ∀ c ∈ l, jsWhitespace c = false) : jsTrim l = l := by
  unfold jsTrim trimLeftL trimRightL
  rw [dropWhile_all_false h]
  rw [dropWhile_all_false (fun c hc => h c (List.mem_reverse.mp hc))]
  exact List.reverse_reverse l

theorem scanFirst_head {α : Type} {f : List Char → Option α} {s : List Char}
    {a : α} (hs : s ≠ []) (h : f s = some a) : scanFirst f s = some a := by
  cases s with
  | nil => exact absurd rfl hs
  | cons c t => unfold scanFirst; rw [h]

theorem splitChar_cons (sep c : Char) (t : List Char) :
    splitChar sep (c :: t) =
      if c == sep then [] :: splitChar sep t
      else
        match splitChar sep t with
        | h :: r => (c :: h) :: r
        | [] => [[c]] := rfl

theorem splitChar_no_sep {sep : Char} {l : List Char}
    (h : ∀ c ∈ l, c ≠ sep) : splitChar sep l = [l] := by
  induction l with
  | nil => rfl
  | cons c t ih =>
    have hc : (c == sep) = false := by
      simpa using h c (by simp)
    rw [splitChar_cons, hc, ih (fun x hx => h x (by simp [hx]))]
    simp

theorem splitChar_app_sep {sep : Char} {l : List Char} (r : List Char)
    (h : ∀ c ∈ l, c ≠ sep) :
    splitChar sep (l ++ sep :: r) = l :: splitChar sep r := by
  induction l with
  | nil =>
    show splitChar sep (sep :: r) = [] :: splitChar sep r
    rw [splitChar_cons]
    simp
  | cons c t ih =>
    have hc : (c == sep) = false := by
      simpa using h c (by simp)
    show splitChar sep (c :: (t ++ sep :: r)) = (c :: t) :: splitChar sep r
    rw [splitChar_cons, hc, ih (fun x hx => h x (by simp [hx]))]
    simp

theorem renderNatGo_congr (n : Nat) : ∀ f1 f2, n < f1 → n < f2 →
    renderNatGo f1 n = renderNatGo f2 n := by
  induction n using Nat.strong_induction_on with
  | _ n ih =>
    intro f1 f2 h1 h2
    rcases f1 with _ | f1'
    · omega
    rcases f2 with _ | f2'
    · omega
    unfold renderNatGo
    by_cases h : n < 10
    · rw [if_pos h, if_pos h]
    · rw [if_neg h, if_neg h]
      have hlt : n / 10 < n := Nat.div_lt_self (by omega) (by omega)
      rw [ih (n / 10) hlt f1' f2' (by omega) (by omega)]

theorem renderNatL_unfold (n : Nat) :
    renderNatL n = if n < 10 then [digitChar n]
      else renderNatL (n / 10) ++ [digitChar (n % 10)] := by
  show renderNatGo (n + 1) n = _
  unfold renderNatGo
  by_cases h : n < 10
  · rw [if_pos h, if_pos h]
  · rw [if_neg h, if_neg h]
    have hlt : n / 10 < n := Nat.div_lt_self (by omega) (by omega)
    rw [renderNatGo_congr (n / 10) n (n / 10 + 1) (by omega) (by omega)]
    rfl

theorem digitChar_mem (m : Nat) (hm : m < 10) :
    digitChar m ∈ "0123456789".toList := by
  interval_cases m <;> decide

theorem digitChar_val (m : Nat) (hm : m < 10) :
    (digitChar m).toNat - 48 = m := by
  interval_cases m <;> decide

/-- Every character of a rendered natural number is a decimal digit. -/
theorem renderNatL_digits (n : Nat) :
    ∀ c ∈ renderNatL n, c ∈ "0123456789".toList := by
  induction n using Nat.strong_induction_on with
  | _ n ih =>
    rw [renderNatL_unfold]
    by_cases h : n < 10
    · rw [if_pos h]
      intro c hc
      have hcc : c = digitChar n := by simpa using hc
      subst hcc
      exact digitChar_mem n h
    · rw [if_neg h]
      intro c hc
      rcases List.mem_append.mp hc with hc' | hc'
      · exact ih (n / 10) (Nat.div_lt_self (by omega) (by omega)) c hc'
      · have hm : n % 10 < 10 := Nat.mod_lt _ (by omega)
        have hd : c = digitChar (n % 10) := by simpa using hc'
        subst hd
        exact digitChar_mem _ hm

theorem renderNatL_ne_nil (n : Nat) : renderNatL n ≠ [] := by
  rw [renderNatL_unfold]
  by_cases h : n < 10
  · rw [if_pos h]; simp
  · rw [if_neg h]; simp

/-- Digit-fold inverse of decimal rendering. -/
theorem parseNatDigits_renderNatL (n : Nat) :
    parseNatDigits (renderNatL n) = n := by
  induction n using Nat.strong_induction_on with
  | _ n ih =>
    rw [renderNatL_unfold]
    by_cases h : n < 10
    · rw [if_pos h]
      interval_cases n <;> decide
    · rw [if_neg h]
      unfold parseNatDigits
      rw [List.foldl_append]
      have hrec := ih (n / 10) (Nat.div_lt_self (by omega) (by omega))
      unfold parseNatDigits at hrec
      rw [hrec]
      have hm : n % 10 < 10 := Nat.mod_lt _ (by omega)
      have hd := digitChar_val _ hm
      have hge : 48 ≤ (digitChar (n % 10)).toNat := by
        interval_cases hq : (n % 10) <;> decide
      simp only [List.foldl_cons, List.foldl_nil]
      omega

theorem digit_facts :
    ∀ c ∈ "0123456789".toList,
      jsWhitespace c = false ∧ isDigitC c = true ∧ ('-' == c) = false ∧
      ('+' == c) = false ∧ c ≠ '<' ∧ c ≠ '>' ∧ c ≠ ' ' ∧ c ≠ ',' ∧
      c ≠ '=' ∧ c ≠ ')' ∧ c ≠ '\x27' ∧ c ≠ '"' := by
  decide

/-- Binary64 rounding is the identity on the exactly representable
naturals up to `2^53`. -/
theorem roundDouble_small (n : Nat) (h : n ≤ 2 ^ 53) : roundDouble n = n := by
  unfold roundDouble
  rw [if_pos h]

set_option maxRecDepth 40000 in
/-- Conversion of a small magnitude neither rounds nor overflows. -/
theorem jsNumOfNat_small (neg : Bool) (n : Nat) (h : n ≤ 2 ^ 53) :
    jsNumOfNat neg n = some (if neg then -(n : Int) else (n : Int)) := by
  have hpow : (2 : Nat) ^ 53 < 2 ^ 1024 :=
    Nat.pow_lt_pow_right (by omega) (by omega)
  have hlt : ¬ 2 ^ 1024 ≤ roundDouble n := by
    rw [roundDouble_small n h]
    intro hc
    exact absurd hpow (not_lt.mpr (le_trans hc h))
  show (if 2 ^ 1024 ≤ roundDouble n then none
    else some (if neg then -(roundDouble n : Int) else (roundDouble n : Int)))
    = _
  rw [if_neg hlt, roundDouble_small n h]

/-- The JavaScript `Number` conversion inverts decimal integer rendering
on the magnitudes binary64 keeps exact. -/
theorem jsNumber_renderIntL (x : Int) (hmag : x.natAbs ≤ 2 ^ 53) :
    jsNumber (renderIntL x) = some x := by
  by_cases hx : x < 0
  · have hren : renderIntL x = '-' :: renderNatL x.natAbs := by
      unfold renderIntL; rw [if_pos hx]
    have hd := renderNatL_digits x.natAbs
    have hnonws : ∀ c ∈ '-' :: renderNatL x.natAbs, jsWhitespace c = false := by
      intro c hc
      rcases List.mem_cons.mp hc with rfl | hm
      · decide
      · exact (digit_facts c (hd c hm)).1
    have hall : (renderNatL x.natAbs).all isDigitC = true :=
      List.all_eq_true.mpr (fun c hc => (digit_facts c (hd c hc)).2.1)
    have hne := renderNatL_ne_nil x.natAbs
    unfold jsNumber
    rw [hren, jsTrim_all_nonws hnonws]
    dsimp only
    have h1 : (('-' :: renderNatL x.natAbs).isEmpty) = false := by simp
    rw [h1]
    simp only [Bool.false_eq_true, if_false]
    have h2 : litPfx ['-'] ('-' :: renderNatL x.natAbs) = true := by
      simp [litPfx]
    rw [h2]
    simp only [if_true, List.drop_succ_cons, List.drop_zero]
    have h3 : ((renderNatL x.natAbs).isEmpty) = false := by
      rcases hl : renderNatL x.natAbs with _ | ⟨c, t⟩
      · exact absurd hl hne
      · rfl
    rw [h3, hall]
    simp only [Bool.not_false, Bool.and_true, if_true]
    rw [parseNatDigits_renderNatL, jsNumOfNat_small true x.natAbs hmag]
    congr 1
    rw [if_pos rfl]
    omega
  · have hren : renderIntL x = renderNatL x.natAbs := by
      unfold renderIntL; rw [if_neg hx]
    have hd := renderNatL_digits x.natAbs
    have hnonws : ∀ c ∈ renderNatL x.natAbs, jsWhitespace c = false :=
      fun c hc => (digit_facts c (hd c hc)).1
    have hall : (renderNatL x.natAbs).all isDigitC = true :=
      List.all_eq_true.mpr (fun c hc => (digit_facts c (hd c hc)).2.1)
    have hne := renderNatL_ne_nil x.natAbs
    rcases hl : renderNatL x.natAbs with _ | ⟨c, t⟩
    · exact absurd hl hne
    · have hcd : c ∈ "0123456789".toList := hd c (by rw [hl]; simp)
      unfold jsNumber
      rw [hren, hl]
      rw [jsTrim_all_nonws (by rw [← hl]; exact hnonws)]
      dsimp only
      have h1 : ((c :: t).isEmpty) = false := rfl
      rw [h1]
      simp only [Bool.false_eq_true, if_false]
      have h2 : litPfx ['-'] (c :: t) = false := by
        simp [litPfx, (digit_facts c hcd).2.2.1]
      have h2' : litPfx ['+'] (c :: t) = false := by
        simp [litPfx, (digit_facts c hcd).2.2.2.1]
      rw [h2, h2']
      simp only [Bool.false_eq_true, if_false]
      rw [h1]
      rw [show (c :: t).all isDigitC = true by rw [← hl]; exact hall]
      simp only [Bool.not_false, Bool.and_true, if_true]
      rw [← hl, parseNatDigits_renderNatL, jsNumOfNat_small false x.natAbs hmag]
      congr 1
      rw [if_neg (by simp)]
      omega

end OmniParser

namespace OmniParser

/-!
## Characterization of `matchBetween`
-/

theorem matchBetween_some {o c s : List Char} {i j : Nat}
    (h1 : occursAt o s i ∧ ∀ p < i, ¬occursAt o s p)
    (h2 : occursAt c (s.drop (i + o.length)) j ∧
      ∀ p < j, ¬occursAt c (s.drop (i + o.length)) p) :
    matchBetween o c s = some ((s.drop (i + o.length)).take j) := by
  unfold matchBetween
  rw [findSub_some_iff.mpr h1]
  dsimp only
  rw [findSub_some_iff.mpr h2]

theorem matchBetween_none_left {o c s : List Char}
    (h : ∀ p, ¬occursAt o s p) : matchBetween o c s = none := by
  unfold matchBetween
  rw [findSub_none_iff.mpr h]

theorem matchBetween_none_right {o c s : List Char} {i : Nat}
    (h1 : occursAt o s i ∧ ∀ p < i, ¬occursAt o s p)
    (h2 : ∀ p, ¬occursAt c (s.drop (i + o.length)) p) :
    matchBetween o c s = none := by
  unfold matchBetween
  rw [findSub_some_iff.mpr h1]
  dsimp only
  rw [findSub_none_iff.mpr h2]

end OmniParser

namespace OmniParser

/-- C5: tag extraction is total and deterministic.  For any delimiters and
any text: when the opening delimiter first occurs at `i` and the closing
delimiter first occurs at `j` positions after it, the extractor returns the
trimmed text between them (first occurrence, stopping at the first close);
when no opening delimiter occurs, or none is followed by a closing one, it
returns the empty string.  The reasoning and answer extractors of the
source are the two instances of this extractor. -/
theorem c5_tag_extractor (o c : List Char) (content : String) :
    (∀ i j,
      (occursAt o content.toList i ∧ ∀ p < i, ¬occursAt o content.toList p) →
      (occursAt c (content.toList.drop (i + o.length)) j ∧
        ∀ p < j, ¬occursAt c (content.toList.drop (i + o.length)) p) →
      extractTag o c content =
        (jsTrim ((content.toList.drop (i + o.length)).take j)).asString) ∧
    ((∀ p, ¬occursAt o content.toList p) → extractTag o c content = "") ∧
    (∀ i,
      (occursAt o content.toList i ∧ ∀ p < i, ¬occursAt o content.toList p) →
      (∀ p, ¬occursAt c (content.toList.drop (i + o.length)) p) →
      extractTag o c content = "") ∧
    extractThinkContent content = extractTag thinkOpen thinkClose content ∧
    extractAnswerContent content = extractTag answerOpen answerClose content := by
  refine ⟨?_, ?_, ?_, rfl, rfl⟩
  · intro i j h1 h2
    unfold extractTag
    rw [matchBetween_some h1 h2]
  · intro h
    unfold extractTag
    rw [matchBetween_none_left h]
  · intro i h1 h2
    unfold extractTag
    rw [matchBetween_none_right h1 h2]

/-- Witness for C5: a concrete text in which `<b> hi </b>` appears after a
prefix, a second pair appears later, and extraction returns the trimmed
content of the first pair. -/
theorem c5_tag_extractor_witness :
    extractTag "<b>".toList "</b>".toList "x<b> hi </b>y<b>z</b>" = "hi" := by
  have h := (c5_tag_extractor "<b>".toList "</b>".toList "x<b> hi </b>y<b>z</b>").1
    1 4 ⟨by decide, by decide⟩ ⟨by decide, by decide⟩
  simpa using h

end OmniParser

namespace OmniParser

/-- C1: every decode call is total — each decoder is a plain function into
`ParsedContent` (no exception value exists in the model) — and in every
degenerate case the result degrades to empty parts: the reasoning and
answer fields are always exactly the tag-extractor outputs (computed for
every input), an absent region yields no actions, an absent tool payload
yields no actions, an unparsable tool payload yields no actions, and an
unrecognized grammar inside a present region — a code region without a
function marker, a pointer region whose trimmed text has no matching
action line — yields no actions. -/
theorem c1_decoders_total_and_degenerate (ε : Nat → Entropy) (content : String) :
    (parseCodeContent ε content).think = extractThinkContent content ∧
    (parseCodeContent ε content).answer = extractAnswerContent content ∧
    (parseMcpContent ε content).think = extractThinkContent content ∧
    (parseMcpContent ε content).answer = extractAnswerContent content ∧
    (parseComputerContent ε content).think = extractThinkContent content ∧
    (parseComputerContent ε content).answer = extractAnswerContent content ∧
    (matchBetween codeOpen codeClose content.toList = none →
      (parseCodeContent ε content).tools = none) ∧
    (matchBetween mcpOpen mcpClose content.toList = none →
      (parseMcpContent ε content).tools = none) ∧
    (mcpPayload content = none → (parseMcpContent ε content).tools = none) ∧
    (∀ inner, mcpPayload content = some inner →
      jsonParse ('[' :: inner ++ [']']).asString = none →
      (parseMcpContent ε content).tools = none) ∧
    (matchBetween compOpen compClose content.toList = none →
      (parseComputerContent ε content).tools = none) ∧
    (∀ region, matchBetween codeOpen codeClose content.toList = some region →
      findFunction region = none →
      (parseCodeContent ε content).tools = none) ∧
    (∀ region, matchBetween compOpen compClose content.toList = some region →
      findAction (jsTrim region) = none →
      (parseComputerContent ε content).tools = none) := by
  refine ⟨rfl, rfl, rfl, rfl, rfl, rfl, ?_, ?_, ?_, ?_, ?_, ?_, ?_⟩
  · intro h
    rw [String.toList] at h
    simp [parseCodeContent, h]
  · intro h
    rw [String.toList] at h
    simp [parseMcpContent, mcpPayload, String.toList, h]
  · intro h
    simp [parseMcpContent, h]
  · intro inner hpay hjp
    unfold parseMcpContent
    dsimp only
    rw [hpay]
    dsimp only
    rw [hjp]
    simp
  · intro h
    rw [String.toList] at h
    simp [parseComputerContent, h]
  · intro region hreg hff
    rw [String.toList] at hreg
    simp [parseCodeContent, hreg, hff]
  · intro region hreg hfa
    rw [String.toList] at hreg
    simp [parseComputerContent, hreg, hfa]

/-- Witness for C1: on a plain text without any tags all three decoders
return empty reasoning, empty answer and no actions; on a tool region
whose payload is not JSON the tool decoder returns no actions; on a code
region without a function marker and on a pointer region without a
matching action line the respective decoders return no actions. -/
theorem c1_decoders_total_and_degenerate_witness :
    (parseCodeContent entZero "hi").tools = none ∧
    (parseMcpContent entZero "hi").tools = none ∧
    (parseComputerContent entZero "hi").tools = none ∧
    (parseCodeContent entZero "hi").think = "" ∧
    (parseCodeContent entZero "hi").answer = "" ∧
    (parseMcpContent entZero
      "<mcp_env><|FunctionCallBegin|>[oops]<|FunctionCallEnd|></mcp_env>").tools
      = none ∧
    (parseCodeContent entZero "<code_env>nothing</code_env>").tools = none ∧
    (parseComputerContent entZero
      "<computer_env>do stuff</computer_env>").tools = none := by
  have h1 := c1_decoders_total_and_degenerate entZero "hi"
  have h2 := c1_decoders_total_and_degenerate entZero
    "<mcp_env><|FunctionCallBegin|>[oops]<|FunctionCallEnd|></mcp_env>"
  have h3 := c1_decoders_total_and_degenerate entZero
    "<code_env>nothing</code_env>"
  have h4 := c1_decoders_total_and_degenerate entZero
    "<computer_env>do stuff</computer_env>"
  refine ⟨h1.2.2.2.2.2.2.1 (by rfl), h1.2.2.2.2.2.2.2.1 (by rfl),
    h1.2.2.2.2.2.2.2.2.2.2.1 (by rfl), ?_, ?_,
    h2.2.2.2.2.2.2.2.2.2.1 "oops".toList (by rfl) (by rfl),
    h3.2.2.2.2.2.2.2.2.2.2.2.1 "nothing".toList (by rfl) (by rfl),
    h4.2.2.2.2.2.2.2.2.2.2.2.2 "do stuff".toList (by rfl) (by rfl)⟩
  · rw [h1.1]; rfl
  · rw [h1.2.1]; rfl

end OmniParser

namespace OmniParser

/-- The loop of the tool decoder agrees, identifiers stripped, with the
declarative filter: descriptors before the first `null`, kept when both
fields are truthy, in order. -/
theorem processCalls_strip (ε : Nat → Entropy) (k : Nat) (elems : List Json) :
    (processCalls ε k elems).map stripTC =
      (elems.takeWhile (fun j => !j.isNull)).filterMap
        (fun j => if mcpEmit j then some (mcpRawOf j) else none) := by
  induction elems generalizing k with
  | nil => rfl
  | cons j rest ih =>
    unfold processCalls
    by_cases hn : j.isNull
    · simp [hn, List.takeWhile_cons]
    · by_cases he : mcpEmit j
      · have he' := he
        unfold mcpEmit at he'
        simp [hn, he, he', List.takeWhile_cons, ih, stripTC, mcpRawOf]
      · have he' := he
        unfold mcpEmit at he'
        simp [hn, he, he', List.takeWhile_cons, ih]

/-- The tool decoder's action list is `processCalls` over the descriptor
array, wrapped into the optional field. -/
theorem parseMcp_tools_proc (ε : Nat → Entropy) (content : String) :
    (parseMcpContent ε content).tools =
      (if (processCalls ε 0 (mcpElems content)).isEmpty then none
       else some (processCalls ε 0 (mcpElems content))) := by
  unfold parseMcpContent mcpElems
  dsimp only
  rcases hp : mcpPayload content with _ | inner
  · rfl
  · dsimp only
    rcases hj : jsonParse ('[' :: inner ++ [']']).asString with _ | j
    · rfl
    · cases j <;> rfl

end OmniParser

namespace OmniParser

/-- C10: the decoded-actions field is never present with an empty list —
for each decoder it is either absent or holds at least one invocation —
and it is absent exactly when the environment grammar produced no
invocation (no code region with a function marker, no surviving tool
descriptor, no pointer region with a matching action line). -/
theorem c10_tools_presence (ε : Nat → Entropy) (content : String) :
    ((parseCodeContent ε content).tools.all (fun l => !l.isEmpty) = true) ∧
    ((parseMcpContent ε content).tools.all (fun l => !l.isEmpty) = true) ∧
    ((parseComputerContent ε content).tools.all (fun l => !l.isEmpty) = true) ∧
    ((parseCodeContent ε content).tools = none ↔
      (matchBetween codeOpen codeClose content.toList).bind findFunction = none) ∧
    ((parseMcpContent ε content).tools = none ↔ mcpRawCalls content = []) ∧
    ((parseComputerContent ε content).tools = none ↔
      ((matchBetween compOpen compClose content.toList).map jsTrim).bind
        findAction = none) := by
  have hmcp : mcpRawCalls content =
      (processCalls ε 0 (mcpElems content)).map stripTC :=
    (processCalls_strip ε 0 (mcpElems content)).symm
  refine ⟨?_, ?_, ?_, ?_, ?_, ?_⟩
  · unfold parseCodeContent
    dsimp only
    rcases hm : matchBetween codeOpen codeClose content.toList with _ | region
    · rfl
    · dsimp only
      rcases hf : findFunction region with _ | fname <;> rfl
  · rw [parseMcp_tools_proc]
    by_cases hE : (processCalls ε 0 (mcpElems content)).isEmpty
    · rw [if_pos hE]; rfl
    · rw [if_neg hE]
      simpa using hE
  · unfold parseComputerContent
    dsimp only
    rcases hm : matchBetween compOpen compClose content.toList with _ | region
    · rfl
    · dsimp only
      rcases ha : findAction (jsTrim region) with _ | na
      · rfl
      · rcases na with ⟨name, args⟩
        dsimp only
        rcases hp : pointSplit args with _ | r <;> rfl
  · unfold parseCodeContent
    dsimp only
    rcases hm : matchBetween codeOpen codeClose content.toList with _ | region
    · simp
    · dsimp only
      rcases hf : findFunction region with _ | fname <;> simp [hf]
  · rw [parseMcp_tools_proc, hmcp]
    by_cases hE : (processCalls ε 0 (mcpElems content)).isEmpty
    · rw [if_pos hE]
      have : processCalls ε 0 (mcpElems content) = [] :=
        List.isEmpty_iff.mp hE
      simp [this]
    · rw [if_neg hE]
      have : processCalls ε 0 (mcpElems content) ≠ [] := by
        intro hc
        exact hE (by simp [hc])
      simp [this]
  · unfold parseComputerContent
    dsimp only
    rcases hm : matchBetween compOpen compClose content.toList with _ | region
    · simp
    · dsimp only
      rcases ha : findAction (jsTrim region) with _ | na
      · simp [ha]
      · rcases na with ⟨name, args⟩
        dsimp only
        rcases hp : pointSplit args with _ | r <;> simp [ha, hp]

end OmniParser

namespace OmniParser

/-- Witness for C10: on a text with no code region the code decoder's
action field is absent, by the characterization. -/
theorem c10_tools_presence_witness :
    (parseCodeContent entZero "hi").tools = none :=
  ((c10_tools_presence entZero "hi").2.2.2.1).mpr (by rfl)

set_option maxRecDepth 100000 in
/-- C9: for every input the code decoder and the pointer decoder emit at
most one invocation — exactly one when their region and grammar match
(the characterizations of emptiness), zero otherwise — while the tool
decoder can emit more than one, exhibited on a two-descriptor payload. -/
theorem c9_at_most_one (ε : Nat → Entropy) (content : String) :
    (∀ l, (parseCodeContent ε content).tools = some l → l.length = 1) ∧
    (∀ l, (parseComputerContent ε content).tools = some l → l.length = 1) ∧
    ((parseCodeContent ε content).tools = none ↔
      (matchBetween codeOpen codeClose content.toList).bind findFunction
        = none) ∧
    ((parseComputerContent ε content).tools = none ↔
      ((matchBetween compOpen compClose content.toList).map jsTrim).bind
        findAction = none) ∧
    (∃ l, (parseMcpContent entZero
      "<mcp_env><|FunctionCallBegin|>[\x7b\"name\":\"a\",\"parameters\":\x7b\x7d\x7d,\x7b\"name\":\"b\",\"parameters\":\x7b\x7d\x7d]<|FunctionCallEnd|></mcp_env>").tools
      = some l ∧ l.length = 2) := by
  refine ⟨?_, ?_, ?_, ?_, ?_⟩
  · unfold parseCodeContent
    dsimp only
    rcases hm : matchBetween codeOpen codeClose content.toList with _ | region
    · intro l hl; exact absurd hl (by simp)
    · dsimp only
      rcases hf : findFunction region with _ | fname
      · intro l hl; exact absurd hl (by simp)
      · intro l hl
        have : l = [⟨generateToolCallId (ε 0), "function",
            Json.str fname.asString,
            (Json.stringify (Json.obj ((buildParams (collectParams region)).map
              (fun kv => (kv.1.asString, Json.str kv.2.asString))))).asString⟩] := by
          simpa using hl.symm
        rw [this]
        rfl
  · unfold parseComputerContent
    dsimp only
    rcases hm : matchBetween compOpen compClose content.toList with _ | region
    · intro l hl; exact absurd hl (by simp)
    · dsimp only
      rcases ha : findAction (jsTrim region) with _ | na
      · intro l hl; exact absurd hl (by simp)
      · rcases na with ⟨name, args⟩
        dsimp only
        rcases hp : pointSplit args with _ | r
        · intro l hl
          simp only [List.isEmpty_cons, Bool.false_eq_true, if_false,
            Option.some.injEq] at hl
          rw [← hl]
          rfl
        · intro l hl
          simp only [List.isEmpty_cons, Bool.false_eq_true, if_false,
            Option.some.injEq] at hl
          rw [← hl]
          rfl
  · unfold parseCodeContent
    dsimp only
    rcases hm : matchBetween codeOpen codeClose content.toList with _ | region
    · simp
    · dsimp only
      rcases hf : findFunction region with _ | fname <;> simp [hf]
  · unfold parseComputerContent
    dsimp only
    rcases hm : matchBetween compOpen compClose content.toList with _ | region
    · simp
    · dsimp only
      rcases ha : findAction (jsTrim region) with _ | na
      · simp [ha]
      · rcases na with ⟨name, args⟩
        dsimp only
        rcases hp : pointSplit args with _ | r <;> simp [ha, hp]
  · exact ⟨[⟨"call_0_", "function", Json.str "a", "\x7b\x7d"⟩,
      ⟨"call_0_", "function", Json.str "b", "\x7b\x7d"⟩], by rfl, rfl⟩

/-- Witness for C9: a concrete code-environment decode has exactly one
invocation. -/
theorem c9_at_most_one_witness :
    ∃ l, (parseCodeContent entZero
      "<code_env><function=run><parameter=cmd>ls</code_env>").tools = some l ∧
      l.length = 1 := by
  refine ⟨[⟨"call_0_", "function", Json.str "run", "\x7b\"cmd\":\"ls\"\x7d"⟩],
    by rfl, ?_⟩
  exact (c9_at_most_one entZero
    "<code_env><function=run><parameter=cmd>ls</code_env>").1 _ (by rfl)

end OmniParser

namespace OmniParser

/-- C7: decoding is deterministic modulo identifiers.  Running any decoder
on the same text with two different entropy streams (different wall-clock
values and different random values) gives identical reasoning, identical
answer, and identical invocation names and arguments; only the `id`
components can differ. -/
theorem c7_determinism_mod_ids (content : String) (ε₁ ε₂ : Nat → Entropy) :
    (parseCodeContent ε₁ content).think = (parseCodeContent ε₂ content).think ∧
    (parseCodeContent ε₁ content).answer = (parseCodeContent ε₂ content).answer ∧
    Option.map (List.map stripTC) (parseCodeContent ε₁ content).tools =
      Option.map (List.map stripTC) (parseCodeContent ε₂ content).tools ∧
    (parseMcpContent ε₁ content).think = (parseMcpContent ε₂ content).think ∧
    (parseMcpContent ε₁ content).answer = (parseMcpContent ε₂ content).answer ∧
    Option.map (List.map stripTC) (parseMcpContent ε₁ content).tools =
      Option.map (List.map stripTC) (parseMcpContent ε₂ content).tools ∧
    (parseComputerContent ε₁ content).think
      = (parseComputerContent ε₂ content).think ∧
    (parseComputerContent ε₁ content).answer
      = (parseComputerContent ε₂ content).answer ∧
    Option.map (List.map stripTC) (parseComputerContent ε₁ content).tools =
      Option.map (List.map stripTC) (parseComputerContent ε₂ content).tools := by
  refine ⟨rfl, rfl, ?_, rfl, rfl, ?_, rfl, rfl, ?_⟩
  · unfold parseCodeContent
    dsimp only
    rcases hm : matchBetween codeOpen codeClose content.toList with _ | region
    · rfl
    · dsimp only
      rcases hf : findFunction region with _ | fname <;> rfl
  · rw [parseMcp_tools_proc ε₁, parseMcp_tools_proc ε₂]
    have hmap : (processCalls ε₁ 0 (mcpElems content)).map stripTC =
        (processCalls ε₂ 0 (mcpElems content)).map stripTC := by
      rw [processCalls_strip, processCalls_strip]
    by_cases hE : (processCalls ε₁ 0 (mcpElems content)).isEmpty
    · have h1 : processCalls ε₁ 0 (mcpElems content) = [] :=
        List.isEmpty_iff.mp hE
      have h2 : processCalls ε₂ 0 (mcpElems content) = [] := by
        have := hmap
        rw [h1] at this
        exact List.map_eq_nil_iff.mp this.symm
      rw [h1, h2]
    · have h1 : processCalls ε₁ 0 (mcpElems content) ≠ [] := by
        intro hc; exact hE (by simp [hc])
      have h2 : processCalls ε₂ 0 (mcpElems content) ≠ [] := by
        intro hc
        rw [hc] at hmap
        simp only [List.map_nil] at hmap
        exact h1 (List.map_eq_nil_iff.mp hmap)
      rw [if_neg (by simpa using h1), if_neg (by simpa using h2)]
      simpa using hmap
  · unfold parseComputerContent
    dsimp only
    rcases hm : matchBetween compOpen compClose content.toList with _ | region
    · rfl
    · dsimp only
      rcases ha : findAction (jsTrim region) with _ | na
      · rfl
      · rcases na with ⟨name, args⟩
        dsimp only
        rcases hp : pointSplit args with _ | r <;> rfl

end OmniParser

namespace OmniParser

set_option maxRecDepth 1000000 in
/-- Counterexample to C2 as stated.  First: a descriptor in which both
`name` and `parameters` are present — `parameters` is the (present) JSON
value `null` — decodes to zero invocations, because the source tests
truthiness (`call.name && call.parameters`), not presence.  Second: in an
array holding a well-formed descriptor, then `null`, then another
well-formed descriptor, the decoding of the `null` descriptor does
invalidate its later sibling (`b` is lost, the loop aborts through the
catch), so one malformed entry is not always without effect on its
siblings. -/
theorem c2_counterexample :
    jsonParse "[\x7b\"name\":\"a\",\"parameters\":null\x7d]" =
      some (Json.arr [Json.obj [("name", Json.str "a"),
        ("parameters", Json.null)]]) ∧
    (parseMcpContent entZero
      "<mcp_env><|FunctionCallBegin|>[\x7b\"name\":\"a\",\"parameters\":null\x7d]<|FunctionCallEnd|></mcp_env>").tools
      = none ∧
    Option.map (List.map stripTC) (parseMcpContent entZero
      "<mcp_env><|FunctionCallBegin|>[\x7b\"name\":\"a\",\"parameters\":\x7b\x7d\x7d,null,\x7b\"name\":\"b\",\"parameters\":\x7b\x7d\x7d]<|FunctionCallEnd|></mcp_env>").tools
      = some [(Json.str "a", "\x7b\x7d")] := by
  exact ⟨rfl, rfl, rfl⟩

/-- C2 (amended): for every successfully parsed descriptor array, in array
order, a descriptor with truthy `name` and truthy `parameters` (present
and non-null, non-false, non-zero, nonempty) emits the invocation
`(name, arguments = stringified parameters)`; any other non-null
descriptor is silently dropped and decoding continues; a `null` descriptor
stops decoding of itself and all later descriptors while keeping earlier
emissions (the thrown property access is caught outside the loop). -/
theorem c2_mcp_partial_success_amended (ε : Nat → Entropy) (content : String)
    (inner : List Char) (elems : List Json)
    (hp : mcpPayload content = some inner)
    (hj : jsonParse ('[' :: inner ++ [']']).asString = some (Json.arr elems)) :
    Option.map (List.map stripTC) (parseMcpContent ε content).tools =
      (if ((elems.takeWhile (fun j => !j.isNull)).filterMap
          (fun j => if mcpEmit j then some (mcpRawOf j) else none)).isEmpty
       then none
       else some ((elems.takeWhile (fun j => !j.isNull)).filterMap
         (fun j => if mcpEmit j then some (mcpRawOf j) else none))) := by
  have hmap := processCalls_strip ε 0 elems
  have htools : (parseMcpContent ε content).tools =
      (if (processCalls ε 0 elems).isEmpty then none
       else some (processCalls ε 0 elems)) := by
    unfold parseMcpContent
    dsimp only
    rw [hp]
    dsimp only
    rw [hj]
  rw [htools]
  by_cases hE : (processCalls ε 0 elems).isEmpty
  · have h0 : processCalls ε 0 elems = [] := List.isEmpty_iff.mp hE
    have hr : (elems.takeWhile (fun j => !j.isNull)).filterMap
        (fun j => if mcpEmit j then some (mcpRawOf j) else none) = [] := by
      rw [← hmap, h0]
      rfl
    rw [if_pos hE, hr]
    rfl
  · have h1 : processCalls ε 0 elems ≠ [] := by
      intro hc; exact hE (by simp [hc])
    have hr : ((elems.takeWhile (fun j => !j.isNull)).filterMap
        (fun j => if mcpEmit j then some (mcpRawOf j) else none)).isEmpty
        = false := by
      rw [← hmap]
      rcases hc : processCalls ε 0 elems with _ | ⟨x, xs⟩
      · exact absurd hc h1
      · rfl
    rw [if_neg hE, hr]
    simp [hmap]

/-- Witness for C2 (amended): the spec's partial-success scenario — one
well-formed descriptor followed by one missing `parameters` — decodes to
exactly the one well-formed invocation. -/
theorem c2_mcp_partial_success_amended_witness :
    Option.map (List.map stripTC) (parseMcpContent entZero
      "<mcp_env><|FunctionCallBegin|>[\x7b\"name\":\"a\",\"parameters\":\x7b\"p\":1\x7d\x7d,\x7b\"name\":\"b\"\x7d]<|FunctionCallEnd|></mcp_env>").tools
      = some [(Json.str "a", "\x7b\"p\":1\x7d")] := by
  have h := c2_mcp_partial_success_amended entZero
    "<mcp_env><|FunctionCallBegin|>[\x7b\"name\":\"a\",\"parameters\":\x7b\"p\":1\x7d\x7d,\x7b\"name\":\"b\"\x7d]<|FunctionCallEnd|></mcp_env>"
    "\x7b\"name\":\"a\",\"parameters\":\x7b\"p\":1\x7d\x7d,\x7b\"name\":\"b\"\x7d".toList
    [Json.obj [("name", Json.str "a"),
      ("parameters", Json.obj [("p", Json.num "1")])],
     Json.obj [("name", Json.str "b")]]
    (by rfl) (by rfl)
  exact h.trans (by rfl)

end OmniParser

namespace OmniParser

theorem paramStep_rest_lt {s : List Char} {kv : List Char × List Char}
    {rest : List Char} (h : paramStep s = some (kv, rest)) :
    rest.length < s.length := by
  unfold paramStep at h
  split at h
  · dsimp only at h
    split at h
    · exact absurd h (by simp)
    · split at h
      · exact absurd h (by simp)
      · rename_i hp hk x t heq
        simp only [Option.some.injEq, Prod.mk.injEq] at h
        have hrest : t.drop ((t.takeWhile (fun c => c != '<')).length) = rest :=
          h.2
        have h1 : rest.length ≤ t.length := by
          rw [← hrest, List.length_drop]; omega
        have h2 : t.length < (s.drop paramLit.length).length := by
          have hl := congrArg List.length heq
          simp only [List.length_cons, List.length_drop] at hl
          rw [List.length_drop]
          omega
        have h3 : (s.drop paramLit.length).length ≤ s.length := by
          rw [List.length_drop]; omega
        omega
  · exact absurd h (by simp)

theorem scanFirst_rest_lt {α : Type} {f : List Char → Option (α × List Char)}
    (hf : ∀ s kv rest, f s = some (kv, rest) → rest.length < s.length) :
    ∀ s kv rest, scanFirst f s = some (kv, rest) → rest.length < s.length := by
  intro s
  induction s with
  | nil => intro kv rest h; simp [scanFirst] at h
  | cons c t ih =>
    intro kv rest h
    unfold scanFirst at h
    rcases hc : f (c :: t) with _ | ⟨a, r⟩
    · rw [hc] at h
      have := ih kv rest h
      simpa using Nat.lt_succ_of_lt this
    · rw [hc] at h
      simp only [Option.some.injEq, Prod.mk.injEq] at h
      obtain ⟨rfl, rfl⟩ := h
      exact hf _ _ _ hc

theorem collectParamsGo_congr : ∀ (f1 : Nat) (s : List Char) (f2 : Nat),
    s.length < f1 → s.length < f2 →
    collectParamsGo f1 s = collectParamsGo f2 s := by
  intro f1
  induction f1 with
  | zero => intro s f2 h1 h2; omega
  | succ f1' ih =>
    intro s f2 h1 h2
    rcases f2 with _ | f2'
    · omega
    · unfold collectParamsGo
      rcases hs : scanFirst paramStep s with _ | ⟨kv, rest⟩
      · rfl
      · dsimp only
        have hlt : rest.length < s.length :=
          scanFirst_rest_lt (fun _ _ _ h => paramStep_rest_lt h) s kv rest hs
        rw [ih rest f2' (by omega) (by omega)]

theorem collectParams_unfold (s : List Char) :
    collectParams s =
      match scanFirst paramStep s with
      | some (kv, rest) => kv :: collectParams rest
      | none => [] := by
  have step : collectParamsGo (s.length + 1) s =
      (match scanFirst paramStep s with
       | some (kv, rest) => kv :: collectParamsGo s.length rest
       | none => []) := rfl
  show collectParamsGo (s.length + 1) s = _
  rw [step]
  rcases hs : scanFirst paramStep s with _ | ⟨kv, rest⟩
  · rfl
  · dsimp only
    have hlt : rest.length < s.length :=
      scanFirst_rest_lt (fun _ _ _ h => paramStep_rest_lt h) s kv rest hs
    rw [collectParamsGo_congr s.length rest (rest.length + 1) (by omega)
      (by omega)]
    rfl

end OmniParser

namespace OmniParser

/-- A parameter marker placed at the head of the text matches with exactly
its key and its value, provided the key holds no `>`, the value holds no
`<`, and the following text is empty or starts with `<`. -/
theorem paramStep_mk (k v rest : List Char) (hk0 : k ≠ [])
    (hk : ∀ c ∈ k, c ≠ '>') (hv : ∀ c ∈ v, c ≠ '<')
    (hrest : rest = [] ∨ ∃ t', rest = '<' :: t') :
    paramStep (mkParam k v ++ rest) = some ((k, v), rest) := by
  have hshape : mkParam k v ++ rest = paramLit ++ (k ++ '>' :: (v ++ rest)) := by
    unfold mkParam
    simp [List.append_assoc]
  rw [hshape]
  unfold paramStep
  rw [if_pos (litPfx_app_self paramLit _)]
  dsimp only
  rw [List.drop_left]
  have htk : (k ++ '>' :: (v ++ rest)).takeWhile (fun c => c != '>') = k := by
    rw [takeWhile_app _ (fun c hc => by simpa using hk c hc)]
    rw [takeWhile_cons_false _ (by simp)]
    simp
  rw [htk]
  rw [if_neg (by simpa using hk0)]
  have hdk : (k ++ '>' :: (v ++ rest)).drop k.length = '>' :: (v ++ rest) :=
    List.drop_left k _
  rw [hdk]
  dsimp only
  have htv : (v ++ rest).takeWhile (fun c => c != '<') = v := by
    rw [takeWhile_app _ (fun c hc => by simpa using hv c hc)]
    rcases hrest with rfl | ⟨t', rfl⟩
    · simp
    · rw [takeWhile_cons_false _ (by simp)]
      simp
  rw [htv]
  rw [List.drop_left v rest]

set_option maxRecDepth 100000 in
/-- Counterexample to C3 as stated.  In the region
`<function=run><parameter=cmd> ls <x`, the claim predicts the argument
value `"ls <x"` (the run up to the next marker or the region end, which
contains no further marker, trimmed of whitespace); the code instead
stores `" ls "` — the capture stops at the first `<` character and is not
trimmed. -/
theorem c3_counterexample :
    (parseCodeContent entZero
      "<code_env><function=run><parameter=cmd> ls <x</code_env>").tools
      = some [⟨"call_0_", "function", Json.str "run",
        "\x7b\"cmd\":\" ls \"\x7d"⟩] := by
  rfl

set_option maxRecDepth 400000 in
/-- C3 (amended): for a code region made of parameter markers, each
`parameter=KEY` marker's value is the text run from immediately after the
marker up to (but not including) the next `<` character — which is the
next marker or the region's end exactly when the value contains no `<` —
stored without trimming under KEY, a later duplicate overwriting the
value in place; the rendered argument object lists keys in JavaScript
own-property enumeration order: canonical array-index keys first in
ascending numeric order, then the remaining keys in first-seen order (so
first-seen order is preserved exactly when no key is an array index, and
the concrete region with keys `2` then `1` renders as
`\x7b"1":"b","2":"a"\x7d`). -/
theorem c3_code_params_amended (k₁ v₁ k₂ v₂ : List Char)
    (hk₁0 : k₁ ≠ []) (hk₂0 : k₂ ≠ [])
    (hk₁ : ∀ c ∈ k₁, c ≠ '>') (hk₂ : ∀ c ∈ k₂, c ≠ '>')
    (hv₁ : ∀ c ∈ v₁, c ≠ '<') (hv₂ : ∀ c ∈ v₂, c ≠ '<') :
    collectParams (mkParam k₁ v₁ ++ mkParam k₂ v₂) = [(k₁, v₁), (k₂, v₂)] ∧
    buildParams (collectParams (mkParam k₁ v₁ ++ mkParam k₂ v₂)) =
      (if k₁ = k₂ then [(k₁, v₂)]
       else if isArrayIdx k₂ &&
           (!(isArrayIdx k₁) || parseNatDigits k₂ < parseNatDigits k₁) then
         [(k₂, v₂), (k₁, v₁)]
       else [(k₁, v₁), (k₂, v₂)]) ∧
    parseCodeContent entZero
      "<code_env><function=run><parameter=2>a<parameter=1>b</code_env>"
      = ⟨"", "", some [⟨"call_0_", "function", Json.str "run",
          "\x7b\"1\":\"b\",\"2\":\"a\"\x7d"⟩]⟩ := by
  have hne₁ : mkParam k₁ v₁ ++ mkParam k₂ v₂ ≠ [] := by
    unfold mkParam paramLit
    simp
  have hhead₂ : mkParam k₂ v₂ = [] ∨ ∃ t', mkParam k₂ v₂ = '<' :: t' :=
    Or.inr ⟨"parameter=".toList ++ (k₂ ++ '>' :: v₂), rfl⟩
  have hs1 : scanFirst paramStep (mkParam k₁ v₁ ++ mkParam k₂ v₂)
      = some ((k₁, v₁), mkParam k₂ v₂) :=
    scanFirst_head hne₁ (paramStep_mk k₁ v₁ (mkParam k₂ v₂) hk₁0 hk₁ hv₁
      hhead₂)
  have hs2 : scanFirst paramStep (mkParam k₂ v₂) = some ((k₂, v₂), []) := by
    have h := paramStep_mk k₂ v₂ [] hk₂0 hk₂ hv₂ (Or.inl rfl)
    rw [List.append_nil] at h
    exact scanFirst_head (by unfold mkParam paramLit; simp) h
  have hcoll : collectParams (mkParam k₁ v₁ ++ mkParam k₂ v₂)
      = [(k₁, v₁), (k₂, v₂)] := by
    rw [collectParams_unfold, hs1]
    dsimp only
    rw [collectParams_unfold, hs2]
    rfl
  refine ⟨hcoll, ?_, ?_⟩
  · rw [hcoll]
    have hstep : buildParams [(k₁, v₁), (k₂, v₂)] =
        objInsertKV [(k₁, v₁)] k₂ v₂ := rfl
    rw [hstep]
    by_cases hkk : k₁ = k₂
    · subst hkk
      rw [if_pos rfl]
      unfold objInsertKV
      simp
    · rw [if_neg hkk]
      have hbe : (k₁ == k₂) = false := by simpa using hkk
      by_cases hidx : (isArrayIdx k₂ &&
          (!(isArrayIdx k₁) || parseNatDigits k₂ < parseNatDigits k₁)) = true
      · rw [if_pos hidx]
        unfold objInsertKV
        simp [hbe, hidx]
      · rw [if_neg hidx]
        unfold objInsertKV
        simp [hbe, hidx, objInsertKV]
  · rfl

/-- Witness for C3 (amended): two markers with the same key `cmd` and
values `" a "` and `"b"` produce the single binding `cmd ↦ "b"`,
untrimmed values kept as captured; two markers with the array-index keys
`2` then `1` are stored in ascending numeric enumeration order. -/
theorem c3_code_params_amended_witness :
    buildParams (collectParams
      (mkParam "cmd".toList " a ".toList ++ mkParam "cmd".toList "b".toList))
      = [("cmd".toList, "b".toList)] ∧
    buildParams (collectParams
      (mkParam "2".toList "a".toList ++ mkParam "1".toList "b".toList))
      = [("1".toList, "b".toList), ("2".toList, "a".toList)] := by
  have hdup := (c3_code_params_amended "cmd".toList " a ".toList "cmd".toList
    "b".toList (by decide) (by decide) (by decide) (by decide) (by decide)
    (by decide)).2.1
  rw [if_pos rfl] at hdup
  have hidx := (c3_code_params_amended "2".toList "a".toList "1".toList
    "b".toList (by decide) (by decide) (by decide) (by decide) (by decide)
    (by decide)).2.1
  rw [if_neg (by decide), if_pos (by decide)] at hidx
  exact ⟨hdup, hidx⟩

end OmniParser

namespace OmniParser

/-- Counterexample to C6 as stated.  The reasoning extracted from a
wrapped text is `"hello"`, which contains no think-tags; re-running the
extraction on it returns the empty string, not the same string. -/
theorem c6_counterexample :
    extractThinkContent
      "<think_never_used_51bce0c785ca2f68081bfa7d91973934>hello</think_never_used_51bce0c785ca2f68081bfa7d91973934>"
      = "hello" ∧
    extractThinkContent "hello" = "" ∧
    ("hello" : String) ≠ "" := by
  refine ⟨rfl, rfl, by decide⟩

/-- C6 (amended): extraction is idempotent through re-wrapping, not on the
bare string: for every already-extracted reasoning string (trim-stable and
without any think-close delimiter, also straddling its end), extracting
from the re-wrapped string returns it unchanged; on the bare string
itself extraction returns the empty string whenever the string is not
itself a wrapped region. -/
theorem c6_rewrap_idempotent (r : List Char)
    (htrim : jsTrim r = r)
    (hnc : ∀ p, p < r.length → ¬occursAt thinkClose (r ++ thinkClose) p) :
    extractThinkContent ((thinkOpen ++ r ++ thinkClose).asString)
      = r.asString := by
  unfold extractThinkContent extractTag
  have htl : ((thinkOpen ++ r ++ thinkClose).asString).toList
      = thinkOpen ++ (r ++ thinkClose) := by
    show thinkOpen ++ r ++ thinkClose = thinkOpen ++ (r ++ thinkClose)
    exact List.append_assoc _ _ _
  rw [htl]
  have h1 : occursAt thinkOpen (thinkOpen ++ (r ++ thinkClose)) 0 ∧
      ∀ p < 0, ¬occursAt thinkOpen (thinkOpen ++ (r ++ thinkClose)) p := by
    constructor
    · show litPfx thinkOpen ((thinkOpen ++ (r ++ thinkClose)).drop 0) = true
      rw [List.drop_zero]
      exact litPfx_app_self thinkOpen _
    · omega
  have hdrop : (thinkOpen ++ (r ++ thinkClose)).drop (0 + thinkOpen.length)
      = r ++ thinkClose := by
    rw [Nat.zero_add]
    exact List.drop_left thinkOpen _
  have h2 : occursAt thinkClose
      ((thinkOpen ++ (r ++ thinkClose)).drop (0 + thinkOpen.length))
      r.length ∧
      ∀ p < r.length, ¬occursAt thinkClose
        ((thinkOpen ++ (r ++ thinkClose)).drop (0 + thinkOpen.length)) p := by
    rw [hdrop]
    constructor
    · show litPfx thinkClose ((r ++ thinkClose).drop r.length) = true
      rw [List.drop_left r thinkClose]
      have := litPfx_app_self thinkClose []
      rwa [List.append_nil] at this
    · exact hnc
  rw [matchBetween_some h1 h2]
  rw [hdrop]
  rw [List.take_left r thinkClose]
  dsimp only
  rw [htrim]

/-- Witness for C6 (amended): re-wrapping the extracted string `"hello"`
and extracting again returns `"hello"`. -/
theorem c6_rewrap_idempotent_witness :
    extractThinkContent ((thinkOpen ++ "hello".toList ++ thinkClose).asString)
      = "hello" := by
  have h := c6_rewrap_idempotent "hello".toList (by decide)
    (by decide)
  exact h.trans (by rfl)

/-- Counterexample to C8 as stated.  The random suffix does not have a
fixed length for every value of the random source: `Math.random() = 0.5`
renders in base 36 as `"0.i"`, whose substring from index 2 to 11 is the
single character `"i"`, while a longer expansion gives nine characters. -/
theorem c8_counterexample :
    generateToolCallId ⟨0, "0.abcdefghijkl"⟩ = "call_0_abcdefghi" ∧
    generateToolCallId ⟨0, "0.i"⟩ = "call_0_i" ∧
    ("abcdefghi" : String).length = 9 ∧ ("i" : String).length = 1 := by
  exact ⟨rfl, rfl, rfl, rfl⟩

/-- C8 (amended): every identifier is the constant prefix `call_`, the
decimal wall-clock timestamp, an underscore, and the random source's
base-36 expansion cut from index 2 to index 11 — a suffix of AT MOST nine
characters (nine only when the expansion is long enough), alphanumeric
whenever the expansion past the leading `0.` is. -/
theorem c8_id_structure_amended (e : Entropy) :
    generateToolCallId e =
      "call_" ++ (renderNatL e.now).asString ++ "_" ++
        ((e.rand.toList.drop 2).take 9).asString ∧
    ((e.rand.toList.drop 2).take 9).length ≤ 9 ∧
    ((∀ c ∈ e.rand.toList.drop 2, (isDigitC c || ('a' ≤ c && c ≤ 'z')) = true) →
      ∀ c ∈ (e.rand.toList.drop 2).take 9,
        (isDigitC c || ('a' ≤ c && c ≤ 'z')) = true) := by
  refine ⟨rfl, ?_, ?_⟩
  · rw [List.length_take]
    omega
  · intro h c hc
    exact h c (List.take_subset _ _ hc)

/-- Witness for C8 (amended): a concrete timestamp and random expansion
give the structured identifier with a nine-character alphanumeric
suffix. -/
theorem c8_id_structure_amended_witness :
    generateToolCallId ⟨7, "0.a1b2c3d4e5"⟩ = "call_7_a1b2c3d4e" ∧
    (∀ c ∈ ("0.a1b2c3d4e5".toList.drop 2).take 9,
      (isDigitC c || ('a' ≤ c && c ≤ 'z')) = true) := by
  refine ⟨(c8_id_structure_amended ⟨7, "0.a1b2c3d4e5"⟩).1.trans (by rfl),
    (c8_id_structure_amended ⟨7, "0.a1b2c3d4e5"⟩).2.2 (by decide)⟩

end OmniParser

namespace OmniParser

theorem pointSplit_head {s inner after : List Char} (hs : s ≠ [])
    (h : pointStep s = some (inner, after)) :
    pointSplit s = some ([], inner, after) := by
  cases s with
  | nil => exact absurd rfl hs
  | cons c t =>
    unfold pointSplit
    rw [h]

theorem renderIntL_chars (z : Int) :
    ∀ c ∈ renderIntL z, c ∈ "-0123456789".toList := by
  have hsub : ∀ c ∈ "0123456789".toList, c ∈ "-0123456789".toList := by decide
  unfold renderIntL
  by_cases h : z < 0
  · rw [if_pos h]
    intro c hc
    rcases List.mem_cons.mp hc with rfl | hm
    · decide
    · exact hsub c (renderNatL_digits z.natAbs c hm)
  · rw [if_neg h]
    intro c hc
    exact hsub c (renderNatL_digits z.natAbs c hc)

theorem dashDigit_facts :
    ∀ c ∈ "-0123456789".toList,
      c ≠ '<' ∧ c ≠ ' ' ∧ c ≠ ',' ∧ c ≠ ')' ∧ c ≠ '=' ∧ c ≠ '\x27' ∧
      c ≠ '"' ∧ jsWhitespace c = false := by
  decide

theorem renderIntL_ne_nil (z : Int) : renderIntL z ≠ [] := by
  unfold renderIntL
  by_cases h : z < 0
  · rw [if_pos h]; simp
  · rw [if_neg h]; exact renderNatL_ne_nil z.natAbs

/-- A well-formed point argument at the head of the text matches with
exactly its coordinate capture, the following text untouched. -/
theorem pointStep_arg (x y : Int) (tail : List Char) :
    pointStep (pointArgL x y ++ tail) =
      some (renderIntL x ++ ' ' :: renderIntL y, tail) := by
  have hinner : ∀ c ∈ renderIntL x ++ ' ' :: renderIntL y,
      (c != '<') = true := by
    intro c hc
    rcases List.mem_append.mp hc with hm | hm
    · simpa using (dashDigit_facts c (renderIntL_chars x c hm)).1
    · rcases List.mem_cons.mp hm with rfl | hm'
      · decide
      · simpa using (dashDigit_facts c (renderIntL_chars y c hm')).1
  have hshape : pointArgL x y ++ tail =
      pointLit ++ ((renderIntL x ++ ' ' :: renderIntL y) ++ (pointEnd ++ tail)) := by
    unfold pointArgL
    simp [List.append_assoc]
  rw [hshape]
  unfold pointStep
  rw [if_pos (litPfx_app_self pointLit _)]
  dsimp only
  rw [List.drop_left]
  have htk : ((renderIntL x ++ ' ' :: renderIntL y) ++ (pointEnd ++ tail)).takeWhile
      (fun c => c != '<') = renderIntL x ++ ' ' :: renderIntL y := by
    rw [takeWhile_app _ hinner]
    rw [show pointEnd ++ tail = '<' :: ("/point>\x27".toList ++ tail) from rfl]
    rw [takeWhile_cons_false _ (by decide)]
    simp
  rw [htk]
  rw [if_neg (by
    have := renderIntL_ne_nil x
    rcases hx : renderIntL x with _ | ⟨c, t⟩
    · exact absurd hx this
    · simp)]
  rw [List.drop_left]
  rw [if_pos (litPfx_app_self pointEnd tail)]
  rw [List.drop_left]

/-- C4 helper: a point capture `X Y` of exactly representable magnitudes
decodes to the coordinate object. -/
theorem pointValue_coords (x y : Int) (hmx : x.natAbs ≤ 2 ^ 53)
    (hmy : y.natAbs ≤ 2 ^ 53) :
    pointValue (renderIntL x ++ ' ' :: renderIntL y) =
      Json.obj [("x", Json.num (renderIntL x).asString),
        ("y", Json.num (renderIntL y).asString)] := by
  have hx : ∀ c ∈ renderIntL x, c ≠ ' ' :=
    fun c hc => (dashDigit_facts c (renderIntL_chars x c hc)).2.1
  have hy : ∀ c ∈ renderIntL y, c ≠ ' ' :=
    fun c hc => (dashDigit_facts c (renderIntL_chars y c hc)).2.1
  unfold pointValue
  rw [splitChar_app_sep _ hx, splitChar_no_sep hy]
  dsimp only
  rw [show (renderIntL x :: [renderIntL y]).headD [] = renderIntL x from rfl]
  rw [show (renderIntL x :: [renderIntL y]).get? 1 = some (renderIntL y) from rfl]
  rw [jsNumber_renderIntL x hmx]
  dsimp only
  rw [jsNumber_renderIntL y hmy]
  rfl

end OmniParser

namespace OmniParser

theorem findSub_at_head {pat s : List Char} (h : litPfx pat s = true) :
    findSub pat s = some 0 := by
  cases s with
  | nil => unfold findSub; rw [if_pos h]
  | cons c t => unfold findSub; rw [if_pos h]

theorem findSub_cons_neg {pat : List Char} {c : Char} {t : List Char}
    (h : litPfx pat (c :: t) = false) :
    findSub pat (c :: t) = (findSub pat t).map (· + 1) := by
  conv_lhs => unfold findSub
  rw [if_neg (by simp [h])]

theorem findSub_append_skip {pat : List Char} {p₀ : Char} {pat' : List Char}
    (l : List Char) {r : List Char}
    (hp : pat = p₀ :: pat') (hl : ∀ c ∈ l, c ≠ p₀) :
    findSub pat (l ++ r) = (findSub pat r).map (· + l.length) := by
  induction l with
  | nil =>
    rcases hf : findSub pat r with _ | n <;> simp [hf]
  | cons c t ih =>
    have hbe : (p₀ == c) = false := by
      have : c ≠ p₀ := hl c (by simp)
      simpa using fun he => this he.symm
    have hc : litPfx pat (c :: (t ++ r)) = false := by
      rw [hp]
      simp [litPfx, hbe]
    rw [show (c :: t) ++ r = c :: (t ++ r) from rfl, findSub_cons_neg hc,
      ih (fun x hx => hl x (by simp [hx]))]
    rcases hf : findSub pat r with _ | n
    · simp [hf]
    · simp only [hf, Option.map_map, Option.map_some', Function.comp,
        List.length_cons, Option.some.injEq]
      omega

theorem trimLeft_head {c : Char} {t : List Char} (h : jsWhitespace c = false) :
    trimLeftL (c :: t) = c :: t := by
  unfold trimLeftL
  simp [List.dropWhile_cons, h]

theorem trimRight_last (l : List Char) {a : Char} (h : jsWhitespace a = false) :
    trimRightL (l ++ [a]) = l ++ [a] := by
  unfold trimRightL
  rw [List.reverse_append]
  simp [List.dropWhile_cons, h]

end OmniParser


namespace OmniParser

theorem stringify_pt_text (a b : String) :
    Json.stringify (Json.obj [("point",
      Json.obj [("x", Json.num a), ("y", Json.num b)]),
      ("text", Json.str "hello")])
      = "\x7b\"point\":\x7b\"x\":".toList ++ a.toList ++ ",\"y\":".toList ++
        b.toList ++ "\x7d,\"text\":\"hello\"\x7d".toList := by
  simp [Json.stringify, stringifyObj, stringifyArr, jstrLit,
    List.intercalate, List.intersperse, escChar, escMap, List.find?]

theorem computer_region_match (x y : Int) :
    matchBetween compOpen compClose
      ("<computer_env>Action: type(point=\x27<point>".toList ++
        (renderIntL x ++ ' ' :: (renderIntL y ++
          "</point>\x27, text=\x27hello\x27)</computer_env>".toList)))
      = some ("Action: type(point=\x27<point>".toList ++
        (renderIntL x ++ ' ' :: (renderIntL y ++
          "</point>\x27, text=\x27hello\x27)".toList))) := by
  have hC : "<computer_env>Action: type(point=\x27<point>".toList ++
      (renderIntL x ++ ' ' :: (renderIntL y ++
        "</point>\x27, text=\x27hello\x27)</computer_env>".toList))
      = compOpen ++ (("Action: type(point=\x27<point>".toList ++
        (renderIntL x ++ ' ' :: (renderIntL y ++
          "</point>\x27, text=\x27hello\x27)".toList))) ++ compClose) := by
    have m1 : "<computer_env>Action: type(point=\x27<point>".toList
        = compOpen ++ "Action: type(point=\x27<point>".toList := by rfl
    have m2 : "</point>\x27, text=\x27hello\x27)</computer_env>".toList
        = "</point>\x27, text=\x27hello\x27)".toList ++ compClose := by rfl
    rw [m1, m2]
    simp [List.append_assoc]
  rw [hC]
  unfold matchBetween
  rw [findSub_at_head (litPfx_app_self compOpen _)]
  dsimp only
  have hdrop : (compOpen ++ (("Action: type(point=\x27<point>".toList ++
      (renderIntL x ++ ' ' :: (renderIntL y ++
        "</point>\x27, text=\x27hello\x27)".toList))) ++ compClose)).drop
      (0 + compOpen.length)
      = ("Action: type(point=\x27<point>".toList ++
        (renderIntL x ++ ' ' :: (renderIntL y ++
          "</point>\x27, text=\x27hello\x27)".toList))) ++ compClose := by
    rw [Nat.zero_add]
    exact List.drop_left _ _
  rw [hdrop]
  have hshape : ("Action: type(point=\x27<point>".toList ++
      (renderIntL x ++ ' ' :: (renderIntL y ++
        "</point>\x27, text=\x27hello\x27)".toList))) ++ compClose
      = "Action: type(point=\x27".toList ++
        ('<' :: (("point>".toList ++ (renderIntL x ++ ' ' :: renderIntL y)) ++
          ('<' :: ("/point>\x27, text=\x27hello\x27)".toList ++ compClose)))) := by
    have m3 : "Action: type(point=\x27<point>".toList
        = "Action: type(point=\x27".toList ++ ('<' :: "point>".toList) := by rfl
    have m4 : "</point>\x27, text=\x27hello\x27)".toList
        = '<' :: "/point>\x27, text=\x27hello\x27)".toList := by rfl
    rw [m3, m4]
    simp [List.append_assoc]
  have hL1 : ∀ c ∈ "Action: type(point=\x27".toList, c ≠ '<' := by decide
  have hM : ∀ c ∈ "point>".toList ++ (renderIntL x ++ ' ' :: renderIntL y),
      c ≠ '<' := by
    have hlit : ∀ c ∈ "point>".toList, c ≠ '<' := by decide
    intro c hc
    rcases List.mem_append.mp hc with hm | hm
    · exact hlit c hm
    · rcases List.mem_append.mp hm with hm' | hm'
      · exact (dashDigit_facts c (renderIntL_chars x c hm')).1
      · rcases List.mem_cons.mp hm' with rfl | hm''
        · decide
        · exact (dashDigit_facts c (renderIntL_chars y c hm'')).1
  have hL3 : ∀ c ∈ "/point>\x27, text=\x27hello\x27)".toList, c ≠ '<' := by
    decide
  have hfc : findSub compClose
      ("Action: type(point=\x27".toList ++
        ('<' :: (("point>".toList ++ (renderIntL x ++ ' ' :: renderIntL y)) ++
          ('<' :: ("/point>\x27, text=\x27hello\x27)".toList ++ compClose)))))
      = some (("Action: type(point=\x27<point>".toList ++
        (renderIntL x ++ ' ' :: (renderIntL y ++
          "</point>\x27, text=\x27hello\x27)".toList))).length) := by
    rw [findSub_append_skip "Action: type(point=\x27".toList
      (show compClose = '<' :: "/computer_env>".toList from rfl) hL1]
    rw [findSub_cons_neg (by rfl)]
    rw [findSub_append_skip
      ("point>".toList ++ (renderIntL x ++ ' ' :: renderIntL y))
      (show compClose = '<' :: "/computer_env>".toList from rfl) hM]
    rw [findSub_cons_neg (by rfl)]
    rw [findSub_append_skip "/point>\x27, text=\x27hello\x27)".toList
      (show compClose = '<' :: "/computer_env>".toList from rfl) hL3]
    rw [findSub_at_head (by
      have := litPfx_app_self compClose []
      rwa [List.append_nil] at this)]
    simp only [Option.map_some', Option.some.injEq]
    have l1 : "Action: type(point=\x27".toList.length = 20 := by rfl
    have l2 : "point>".toList.length = 6 := by rfl
    have l3 : "/point>\x27, text=\x27hello\x27)".toList.length = 23 := by rfl
    have l4 : "Action: type(point=\x27<point>".toList.length = 27 := by rfl
    have l5 : "</point>\x27, text=\x27hello\x27)".toList.length = 24 := by rfl
    simp only [List.length_append, List.length_cons, l1, l2, l3, l4, l5]
    omega
  rw [hshape, hfc]
  dsimp only
  rw [← hshape]
  rw [List.take_left]


theorem computer_region_trim (x y : Int) :
    jsTrim ("Action: type(point=\x27<point>".toList ++
      (renderIntL x ++ ' ' :: (renderIntL y ++
        "</point>\x27, text=\x27hello\x27)".toList)))
      = "Action: type(point=\x27<point>".toList ++
        (renderIntL x ++ ' ' :: (renderIntL y ++
          "</point>\x27, text=\x27hello\x27)".toList)) := by
  have hform : "Action: type(point=\x27<point>".toList ++
      (renderIntL x ++ ' ' :: (renderIntL y ++
        "</point>\x27, text=\x27hello\x27)".toList))
      = 'A' :: (("ction: type(point=\x27<point>".toList ++
        (renderIntL x ++ ' ' :: (renderIntL y ++
          "</point>\x27, text=\x27hello\x27".toList))) ++ [')']) := by
    have m1 : "Action: type(point=\x27<point>".toList
        = 'A' :: "ction: type(point=\x27<point>".toList := by rfl
    have m2 : "</point>\x27, text=\x27hello\x27)".toList
        = "</point>\x27, text=\x27hello\x27".toList ++ [')'] := by rfl
    rw [m1, m2]
    simp [List.append_assoc]
  rw [hform]
  unfold jsTrim
  rw [trimLeft_head (by decide)]
  rw [show 'A' :: (("ction: type(point=\x27<point>".toList ++
      (renderIntL x ++ ' ' :: (renderIntL y ++
        "</point>\x27, text=\x27hello\x27".toList))) ++ [')'])
      = ('A' :: ("ction: type(point=\x27<point>".toList ++
        (renderIntL x ++ ' ' :: (renderIntL y ++
          "</point>\x27, text=\x27hello\x27".toList)))) ++ [')'] from rfl]
  rw [trimRight_last _ (by decide)]

theorem computer_action_step (x y : Int) :
    actionStep ("Action: type(point=\x27<point>".toList ++
      (renderIntL x ++ ' ' :: (renderIntL y ++
        "</point>\x27, text=\x27hello\x27)".toList)))
      = some ("type".toList,
        pointArgL x y ++ ", text=\x27hello\x27".toList) := by
  have hAL : "Action: type(point=\x27<point>".toList ++
      (renderIntL x ++ ' ' :: (renderIntL y ++
        "</point>\x27, text=\x27hello\x27)".toList))
      = actionLit ++ (' ' :: ("type(point=\x27<point>".toList ++
        (renderIntL x ++ ' ' :: (renderIntL y ++
          "</point>\x27, text=\x27hello\x27)".toList)))) := by
    have m1 : "Action: type(point=\x27<point>".toList
        = actionLit ++ (' ' :: "type(point=\x27<point>".toList) := by rfl
    rw [m1]
    simp [List.append_assoc]
  have w1 : jsWhitespace ' ' = true := by decide
  have w2 : jsWhitespace 't' = false := by decide
  have hws : (' ' :: ("type(point=\x27<point>".toList ++
      (renderIntL x ++ ' ' :: (renderIntL y ++
        "</point>\x27, text=\x27hello\x27)".toList)))).dropWhile jsWhitespace
      = 't' :: ("ype(point=\x27<point>".toList ++
        (renderIntL x ++ ' ' :: (renderIntL y ++
          "</point>\x27, text=\x27hello\x27)".toList))) := by
    rw [List.dropWhile_cons, if_pos w1]
    rw [show "type(point=\x27<point>".toList ++
        (renderIntL x ++ ' ' :: (renderIntL y ++
          "</point>\x27, text=\x27hello\x27)".toList))
        = 't' :: ("ype(point=\x27<point>".toList ++
          (renderIntL x ++ ' ' :: (renderIntL y ++
            "</point>\x27, text=\x27hello\x27)".toList))) from rfl]
    rw [List.dropWhile_cons, if_neg (by simp [w2])]
  have hname : ('t' :: ("ype(point=\x27<point>".toList ++
      (renderIntL x ++ ' ' :: (renderIntL y ++
        "</point>\x27, text=\x27hello\x27)".toList)))).takeWhile isWordChar
      = "type".toList := by
    rfl
  have hdropname : ('t' :: ("ype(point=\x27<point>".toList ++
      (renderIntL x ++ ' ' :: (renderIntL y ++
        "</point>\x27, text=\x27hello\x27)".toList)))).drop
        ("type".toList).length
      = '(' :: ("point=\x27<point>".toList ++
        (renderIntL x ++ ' ' :: (renderIntL y ++
          "</point>\x27, text=\x27hello\x27)".toList))) := by
    rfl
  have hq1 : ((' ' : Char) != ')') = true := by decide
  have hpa : ∀ c ∈ "point=\x27<point>".toList, (c != ')') = true := by decide
  have hsu : ∀ c ∈ "</point>\x27, text=\x27hello\x27".toList,
      (c != ')') = true := by decide
  have hsx : ∀ c ∈ renderIntL x, (c != ')') = true := fun c hc => by
    simpa using (dashDigit_facts c (renderIntL_chars x c hc)).2.2.2.1
  have hsy : ∀ c ∈ renderIntL y, (c != ')') = true := fun c hc => by
    simpa using (dashDigit_facts c (renderIntL_chars y c hc)).2.2.2.1
  have hsplitp : "point=\x27<point>".toList ++
      (renderIntL x ++ ' ' :: (renderIntL y ++
        "</point>\x27, text=\x27hello\x27)".toList))
      = "point=\x27<point>".toList ++
        (renderIntL x ++ ' ' :: (renderIntL y ++
          ("</point>\x27, text=\x27hello\x27".toList ++ [')']))) := by
    have m2 : "</point>\x27, text=\x27hello\x27)".toList
        = "</point>\x27, text=\x27hello\x27".toList ++ [')'] := by rfl
    rw [m2]
  have hargs : ("point=\x27<point>".toList ++
      (renderIntL x ++ ' ' :: (renderIntL y ++
        "</point>\x27, text=\x27hello\x27)".toList))).takeWhile
        (fun c => c != ')')
      = "point=\x27<point>".toList ++
        (renderIntL x ++ ' ' :: (renderIntL y ++
          "</point>\x27, text=\x27hello\x27".toList)) := by
    rw [hsplitp]
    rw [takeWhile_app _ hpa, takeWhile_app _ hsx]
    rw [List.takeWhile_cons, if_pos hq1]
    rw [takeWhile_app _ hsy, takeWhile_app _ hsu]
    rw [List.takeWhile_cons]
    rw [if_neg (by decide)]
    simp
  have hT2 : "point=\x27<point>".toList ++
      (renderIntL x ++ ' ' :: (renderIntL y ++
        "</point>\x27, text=\x27hello\x27)".toList))
      = ("point=\x27<point>".toList ++
        (renderIntL x ++ ' ' :: (renderIntL y ++
          "</point>\x27, text=\x27hello\x27".toList))) ++ [')'] := by
    rw [hsplitp]
    simp [List.append_assoc]
  have hdropa : ("point=\x27<point>".toList ++
      (renderIntL x ++ ' ' :: (renderIntL y ++
        "</point>\x27, text=\x27hello\x27)".toList))).drop
      (("point=\x27<point>".toList ++
        (renderIntL x ++ ' ' :: (renderIntL y ++
          "</point>\x27, text=\x27hello\x27".toList))).length)
      = [')'] := by
    rw [hT2]
    exact List.drop_left _ _
  have hfinal : pointArgL x y ++ ", text=\x27hello\x27".toList
      = "point=\x27<point>".toList ++
        (renderIntL x ++ ' ' :: (renderIntL y ++
          "</point>\x27, text=\x27hello\x27".toList)) := by
    unfold pointArgL pointLit pointEnd
    have m5 : "</point>\x27".toList ++ ", text=\x27hello\x27".toList
        = "</point>\x27, text=\x27hello\x27".toList := by rfl
    simp [List.append_assoc, m5]
  rw [hAL]
  unfold actionStep
  rw [if_pos (litPfx_app_self actionLit _)]
  dsimp only
  rw [List.drop_left]
  rw [hws, hname]
  rw [if_neg (by decide)]
  rw [hdropname]
  simp only [hargs, hdropa]
  rw [hfinal]


theorem computer_findSub_none (x y : Int) {pat : List Char} {p1 : Char}
    {pat' : List Char} (hp : pat = '<' :: p1 :: pat')
    (h1 : (p1 == 'c') = false) (h2 : (p1 == 'p') = false)
    (h3 : (p1 == '/') = false) :
    findSub pat
      ("<computer_env>Action: type(point=\x27<point>".toList ++
        (renderIntL x ++ ' ' :: (renderIntL y ++
          "</point>\x27, text=\x27hello\x27)</computer_env>".toList)))
      = none := by
  have hB1 : ∀ c ∈ "computer_env>Action: type(point=\x27".toList, c ≠ '<' := by
    decide
  have hB2 : ∀ c ∈ "point>".toList ++ (renderIntL x ++ ' ' :: renderIntL y),
      c ≠ '<' := by
    have hlit : ∀ c ∈ "point>".toList, c ≠ '<' := by decide
    intro c hc
    rcases List.mem_append.mp hc with hm | hm
    · exact hlit c hm
    · rcases List.mem_append.mp hm with hm' | hm'
      · exact (dashDigit_facts c (renderIntL_chars x c hm')).1
      · rcases List.mem_cons.mp hm' with rfl | hm''
        · decide
        · exact (dashDigit_facts c (renderIntL_chars y c hm'')).1
  have hB3 : ∀ c ∈ "/point>\x27, text=\x27hello\x27)".toList, c ≠ '<' := by
    decide
  have hB4 : ∀ c ∈ "/computer_env>".toList, c ≠ '<' := by decide
  have hshape : "<computer_env>Action: type(point=\x27<point>".toList ++
      (renderIntL x ++ ' ' :: (renderIntL y ++
        "</point>\x27, text=\x27hello\x27)</computer_env>".toList))
      = '<' :: ("computer_env>Action: type(point=\x27".toList ++
        ('<' :: (("point>".toList ++ (renderIntL x ++ ' ' :: renderIntL y)) ++
          ('<' :: ("/point>\x27, text=\x27hello\x27)".toList ++
            ('<' :: "/computer_env>".toList)))))) := by
    have m1 : "<computer_env>Action: type(point=\x27<point>".toList
        = '<' :: ("computer_env>Action: type(point=\x27".toList ++
          ('<' :: "point>".toList)) := by rfl
    have m2 : "</point>\x27, text=\x27hello\x27)</computer_env>".toList
        = '<' :: ("/point>\x27, text=\x27hello\x27)".toList ++
          ('<' :: "/computer_env>".toList)) := by rfl
    rw [m1, m2]
    simp [List.append_assoc]
  have hmm1 : ∀ (q : Char) (t : List Char), (p1 == q) = false →
      litPfx pat ('<' :: q :: t) = false := by
    intro q t hq
    rw [hp]
    simp [litPfx, hq]
  rw [hshape]
  rw [findSub_cons_neg (by
    rw [show "computer_env>Action: type(point=\x27".toList ++
      ('<' :: (("point>".toList ++ (renderIntL x ++ ' ' :: renderIntL y)) ++
        ('<' :: ("/point>\x27, text=\x27hello\x27)".toList ++
          ('<' :: "/computer_env>".toList)))))
      = 'c' :: ("omputer_env>Action: type(point=\x27".toList ++
        ('<' :: (("point>".toList ++ (renderIntL x ++ ' ' :: renderIntL y)) ++
          ('<' :: ("/point>\x27, text=\x27hello\x27)".toList ++
            ('<' :: "/computer_env>".toList)))))) from rfl]
    exact hmm1 'c' _ h1)]
  rw [findSub_append_skip "computer_env>Action: type(point=\x27".toList hp hB1]
  rw [findSub_cons_neg (by
    rw [show ("point>".toList ++ (renderIntL x ++ ' ' :: renderIntL y)) ++
        ('<' :: ("/point>\x27, text=\x27hello\x27)".toList ++
          ('<' :: "/computer_env>".toList)))
      = 'p' :: (("oint>".toList ++ (renderIntL x ++ ' ' :: renderIntL y)) ++
        ('<' :: ("/point>\x27, text=\x27hello\x27)".toList ++
          ('<' :: "/computer_env>".toList)))) from by simp
      ]
    exact hmm1 'p' _ h2)]
  rw [findSub_append_skip
    ("point>".toList ++ (renderIntL x ++ ' ' :: renderIntL y)) hp hB2]
  rw [findSub_cons_neg (by
    rw [show "/point>\x27, text=\x27hello\x27)".toList ++
        ('<' :: "/computer_env>".toList)
      = '/' :: ("point>\x27, text=\x27hello\x27)".toList ++
        ('<' :: "/computer_env>".toList)) from rfl]
    exact hmm1 '/' _ h3)]
  rw [findSub_append_skip "/point>\x27, text=\x27hello\x27)".toList hp hB3]
  rw [findSub_cons_neg (by
    rw [show ("/computer_env>".toList : List Char)
      = '/' :: "computer_env>".toList from rfl]
    exact hmm1 '/' _ h3)]
  rw [show ("/computer_env>".toList : List Char)
    = "/computer_env>".toList ++ [] from by simp]
  rw [findSub_append_skip "/computer_env>".toList hp hB4]
  rw [show findSub pat [] = none from by rw [hp]; rfl]
  rfl


theorem addOtherParams_text (J : Json) :
    addOtherParams [("point".toList, J)] ([] ++ ", text=\x27hello\x27".toList)
      = [("point".toList, J), ("text".toList, Json.str "hello")] := by
  rfl

theorem computer_decode_general (ε : Nat → Entropy) (x y : Int)
    (hx : x.natAbs ≤ 2 ^ 53) (hy : y.natAbs ≤ 2 ^ 53) :
    parseComputerContent ε
      (("<computer_env>Action: type(point=\x27<point>".toList ++
        (renderIntL x ++ ' ' :: (renderIntL y ++
          "</point>\x27, text=\x27hello\x27)</computer_env>".toList))).asString)
      = ⟨"", "", some [⟨generateToolCallId (ε 0), "function", Json.str "type",
          ("\x7b\"point\":\x7b\"x\":".toList ++
            ((renderIntL x).asString).toList ++ ",\"y\":".toList ++
            ((renderIntL y).asString).toList ++
            "\x7d,\"text\":\"hello\"\x7d".toList).asString⟩]⟩ := by
  have htl : ("<computer_env>Action: type(point=\x27<point>".toList ++
      (renderIntL x ++ ' ' :: (renderIntL y ++
        "</point>\x27, text=\x27hello\x27)</computer_env>".toList))).asString.toList
      = "<computer_env>Action: type(point=\x27<point>".toList ++
        (renderIntL x ++ ' ' :: (renderIntL y ++
          "</point>\x27, text=\x27hello\x27)</computer_env>".toList)) := rfl
  have hthink : extractThinkContent
      (("<computer_env>Action: type(point=\x27<point>".toList ++
        (renderIntL x ++ ' ' :: (renderIntL y ++
          "</point>\x27, text=\x27hello\x27)</computer_env>".toList))).asString)
      = "" := by
    unfold extractThinkContent extractTag matchBetween
    rw [htl]
    rw [computer_findSub_none x y
      (show thinkOpen = '<' :: 't' :: "hink_never_used_51bce0c785ca2f68081bfa7d91973934>".toList from rfl)
      (by decide) (by decide) (by decide)]
  have hanswer : extractAnswerContent
      (("<computer_env>Action: type(point=\x27<point>".toList ++
        (renderIntL x ++ ' ' :: (renderIntL y ++
          "</point>\x27, text=\x27hello\x27)</computer_env>".toList))).asString)
      = "" := by
    unfold extractAnswerContent extractTag matchBetween
    rw [htl]
    rw [computer_findSub_none x y
      (show answerOpen = '<' :: 'a' :: "nswer>".toList from rfl)
      (by decide) (by decide) (by decide)]
  have hinner_ne : ("Action: type(point=\x27<point>".toList ++
      (renderIntL x ++ ' ' :: (renderIntL y ++
        "</point>\x27, text=\x27hello\x27)".toList))) ≠ [] := by
    simp
  have hfa : findAction (jsTrim ("Action: type(point=\x27<point>".toList ++
      (renderIntL x ++ ' ' :: (renderIntL y ++
        "</point>\x27, text=\x27hello\x27)".toList))))
      = some ("type".toList,
        pointArgL x y ++ ", text=\x27hello\x27".toList) := by
    rw [computer_region_trim]
    exact scanFirst_head hinner_ne (computer_action_step x y)
  have hps : pointSplit (pointArgL x y ++ ", text=\x27hello\x27".toList)
      = some ([], renderIntL x ++ ' ' :: renderIntL y,
        ", text=\x27hello\x27".toList) := by
    apply pointSplit_head
    · unfold pointArgL pointLit
      simp
    · exact pointStep_arg x y ", text=\x27hello\x27".toList
  have hp1 : ("point".toList).asString = "point" := rfl
  have hp2 : ("text".toList).asString = "text" := rfl
  have hp3 : ("type".toList).asString = "type" := rfl
  have hpv := pointValue_coords x y hx hy
  unfold parseComputerContent
  simp only [htl, computer_region_match, hfa, hps, hpv,
    addOtherParams_text, List.map_cons, List.map_nil, hp1, hp2, hp3,
    stringify_pt_text, hthink, hanswer, List.isEmpty_cons,
    Bool.false_eq_true, if_false]

theorem stripQuotes_wrap (v : List Char) :
    stripQuotes ('\x27' :: (v ++ ['\x27'])) = v := by
  unfold stripQuotes
  simp [List.getLast?_concat, List.dropLast_concat]

set_option maxRecDepth 1000000 in
/-- Counterexample to C4 as stated.  `Number("9007199254740993")` rounds
to the binary64 value `9007199254740992` — `2^53 + 1` has no exact
float64 representation — so for `X = 9007199254740993` the decoded point
carries `x: 9007199254740992`, not `x: X`: the claim's universal integer
statement fails beyond `2^53`. -/
theorem c4_counterexample :
    parseComputerContent entZero
      "<computer_env>Action: type(point=\x27<point>9007199254740993 20</point>\x27)</computer_env>"
      = ⟨"", "", some [⟨"call_0_", "function", Json.str "type",
          "\x7b\"point\":\x7b\"x\":9007199254740992,\"y\":20\x7d\x7d"⟩]⟩ ∧
    (9007199254740993 : Int) ≠ 9007199254740992 :=
  ⟨rfl, by decide⟩

set_option maxRecDepth 1000000 in
/-- C4 (amended): in the pointer grammar `Action: NAME(ARGS)`, an
argument of the form `point=\x27<point>X Y</point>\x27` decodes, for all
integers X and Y of magnitude at most `2^53` (the range the `Number`
conversion keeps exact; beyond it the coordinate is rounded to the
nearest binary64 value, as the counterexample shows), to the nested value
with fields x and y under the key `point`; every other `key=value`
argument is stored as a string with one surrounding single or double
quote stripped from each end and no further coercion.  Stated as: the
point-argument scanner captures exactly the two rendered coordinates for
every pair of integers; an exactly representable captured pair builds
exactly the nested coordinate object; quote stripping returns the bare
value; the full decoder maps the mixed-argument action to the invocation
named `type` with arguments point/text, uniformly in the exactly
representable integers and the entropy; and the spec's concrete example
decodes accordingly. -/
theorem c4_pointer_point_and_args :
    (∀ (x y : Int) (tail : List Char),
      pointSplit (pointArgL x y ++ tail) =
        some ([], renderIntL x ++ ' ' :: renderIntL y, tail)) ∧
    (∀ (x y : Int), x.natAbs ≤ 2 ^ 53 → y.natAbs ≤ 2 ^ 53 →
      pointValue (renderIntL x ++ ' ' :: renderIntL y) =
        Json.obj [("x", Json.num (renderIntL x).asString),
          ("y", Json.num (renderIntL y).asString)]) ∧
    (∀ v : List Char, stripQuotes ('\x27' :: (v ++ ['\x27'])) = v) ∧
    (∀ (ε : Nat → Entropy) (x y : Int),
      x.natAbs ≤ 2 ^ 53 → y.natAbs ≤ 2 ^ 53 →
      parseComputerContent ε
        (("<computer_env>Action: type(point=\x27<point>".toList ++
          (renderIntL x ++ ' ' :: (renderIntL y ++
            "</point>\x27, text=\x27hello\x27)</computer_env>".toList))).asString)
        = ⟨"", "", some [⟨generateToolCallId (ε 0), "function",
            Json.str "type",
            ("\x7b\"point\":\x7b\"x\":".toList ++
              ((renderIntL x).asString).toList ++ ",\"y\":".toList ++
              ((renderIntL y).asString).toList ++
              "\x7d,\"text\":\"hello\"\x7d".toList).asString⟩]⟩) ∧
    parseComputerContent entZero
      "<computer_env>Action: type(point=\x27<point>10 20</point>\x27, text=\x27hello\x27)</computer_env>"
      = ⟨"", "", some [⟨"call_0_", "function", Json.str "type",
          "\x7b\"point\":\x7b\"x\":10,\"y\":20\x7d,\"text\":\"hello\"\x7d"⟩]⟩ := by
  refine ⟨?_, pointValue_coords, stripQuotes_wrap, computer_decode_general, by rfl⟩
  intro x y tail
  apply pointSplit_head
  · unfold pointArgL pointLit
    simp
  · exact pointStep_arg x y tail

/-- Witness for C4 (amended): the end-to-end conjunct applied at the
exactly representable pair `(-3, 7)` with the zero entropy stream. -/
theorem c4_pointer_point_and_args_witness :
    parseComputerContent entZero
      (("<computer_env>Action: type(point=\x27<point>".toList ++
        (renderIntL (-3) ++ ' ' :: (renderIntL 7 ++
          "</point>\x27, text=\x27hello\x27)</computer_env>".toList))).asString)
      = ⟨"", "", some [⟨generateToolCallId (entZero 0), "function",
          Json.str "type",
          ("\x7b\"point\":\x7b\"x\":".toList ++
            ((renderIntL (-3)).asString).toList ++ ",\"y\":".toList ++
            ((renderIntL 7).asString).toList ++
            "\x7d,\"text\":\"hello\"\x7d".toList).asString⟩]⟩ :=
  c4_pointer_point_and_args.2.2.2.1 entZero (-3) 7 (by decide) (by decide)

end OmniParser
